import Mathlib

/-!
Verification development for the vdf-serde codec (src/ser.rs, src/de.rs,
src/error.rs): a bidirectional codec between a structured value model and
the tab/quote-delimited VDF text format.

Text is modelled as `List Char`.  Machine integers are modelled as `Int`
with explicit range predicates.  The external tokenizer (the steamy-vdf
crate) and the generic serde visitor framework are not part of src/, so
they are modelled from the spec (sections 4, 6 and 8); such definitions
carry a doc comment starting with `Modelled from the spec:`.
-/

namespace VdfSerde

/-- Tokens produced by the token source: an atomic item (already unescaped),
a group opener, or a group closer.  Mirrors `steamy_vdf::parser::Token`. -/
inductive Token where
  | item (s : List Char)
  | groupStart
  | groupEnd
deriving DecidableEq, Repr

/-- Error taxonomy, translated from src/error.rs (`enum Error`). -/
inductive Error where
  | Message (s : List Char)
  | UnsupportedType (s : List Char)
  | EarlyEOF
  | LateEOF
  | Tokenize (s : List Char)
  | Expected (wanted got : List Char)
  | StringParse (s : List Char)
deriving DecidableEq, Repr

/-- Whitespace characters recognized when skipping between tokens and by
`trim_end` (ASCII whitespace; the inputs of interest contain no other). -/
def isWsChar (c : Char) : Bool :=
  c = ' ' || c = '\t' || c = '\n' || c = '\r'

/-- Rust `str::trim_end`, on the ASCII whitespace of `isWsChar`. -/
def trimEnd (s : List Char) : List Char :=
  (s.reverse.dropWhile isWsChar).reverse

/-- Result of asking the token source for one token: a token plus the
remaining text, a signal that more input is needed, or a syntax error. -/
inductive TokStep where
  | done (t : Token) (rest : List Char)
  | moreNeeded
  | bad (msg : List Char)
deriving DecidableEq, Repr

/-- Modelled from the spec: unescaping of a backslash escape inside a quoted
item, inverse to the encoder's escaping of section 4.2 (`\n`, `\t`, `\\`, `\"`).
An unrecognized escape yields the escaped character itself. -/
def unescChar (c : Char) : Char :=
  if c = 'n' then '\n' else if c = 't' then '\t' else c

/-- Modelled from the spec: scanning the body of a double-quoted item after
the opening quote, accumulating unescaped characters until the closing quote.
Running out of input inside the quotes means more input is needed. -/
def scanQuoted : List Char → List Char → TokStep
  | [], _ => .moreNeeded
  | c :: rest, acc =>
    if c = '\\' then
      match rest with
      | [] => .moreNeeded
      | e :: rest' => scanQuoted rest' (acc ++ [unescChar e])
    else if c = '"' then .done (.item acc) rest
    else scanQuoted rest (acc ++ [c])

/-- Characters that terminate a bareword item. -/
def bareEnd (c : Char) : Bool :=
  isWsChar c || c = '{' || c = '}' || c = '"'

/-- Modelled from the spec: scanning an unquoted bareword item. -/
def scanBare : List Char → List Char → Token × List Char
  | [], acc => (.item acc, [])
  | c :: rest, acc =>
    if bareEnd c then (.item acc, c :: rest) else scanBare rest (acc ++ [c])

/-- Modelled from the spec: the external token source (`steamy_vdf::parser::next`),
per sections 6 and 4.2 of the spec: skip whitespace, then `\x7b` / `\x7d` are
group delimiters, a double quote opens a quoted item with escapes, and any
other character starts a bareword item; exhausted input needs more input. -/
def nextTok : List Char → TokStep
  | [] => .moreNeeded
  | c :: rest =>
    if isWsChar c then nextTok rest
    else if c = '{' then .done .groupStart rest
    else if c = '}' then .done .groupEnd rest
    else if c = '"' then scanQuoted rest []
    else
      match scanBare rest [c] with
      | (t, rem) => .done t rem

/-- Rust `Debug` rendering of one character inside a string literal
(the escapes relevant to this format). -/
def rustCharDebug (c : Char) : List Char :=
  if c = '\\' then ['\\', '\\']
  else if c = '"' then ['\\', '"']
  else if c = '\n' then ['\\', 'n']
  else if c = '\t' then ['\\', 't']
  else if c = '\r' then ['\\', 'r']
  else [c]

/-- Rendering of `format!("\x7b:?\x7d", token)` used in `Expected` errors:
derived `Debug` on `Token`. -/
def tokenDebug : Token → List Char
  | .item s => "Item(\"".data ++ s.flatMap rustCharDebug ++ "\")".data
  | .groupStart => "GroupStart".data
  | .groupEnd => "GroupEnd".data

/-- Decoder state, translated from src/de.rs (`struct Deserializer`): the
remaining input, the queue of parsed-but-unconsumed tokens, and the
top-level-name flag. -/
structure Deserializer where
  input : List Char
  parsed_input : List Token
  top_level : Bool
deriving DecidableEq, Repr

/-- `Deserializer::from_str`, translated from src/de.rs. -/
def Deserializer.fromStr (s : List Char) : Deserializer :=
  ⟨s, [], true⟩

/-- `Deserializer::parse_more`, translated from src/de.rs: pull one token
from the token source into the queue. -/
def parse_more (d : Deserializer) : Except Error Unit × Deserializer :=
  match nextTok d.input with
  | .done t rest =>
      (.ok (), { d with input := rest, parsed_input := d.parsed_input ++ [t] })
  | .moreNeeded => (.error .EarlyEOF, d)
  | .bad m => (.error (.Tokenize m), d)

/-- `Deserializer::parse_more_if_needed`, translated from src/de.rs. -/
def parse_more_if_needed (d : Deserializer) : Except Error Unit × Deserializer :=
  if d.parsed_input = [] then parse_more d else (.ok (), d)

/-- `Deserializer::peek_token`, translated from src/de.rs: the front of the
queue without removing it. -/
def peek_token (d : Deserializer) : Except Error Token × Deserializer :=
  match parse_more_if_needed d with
  | (.error e, d') => (.error e, d')
  | (.ok _, d') =>
    match d'.parsed_input with
    | [] => (.error .EarlyEOF, d')
    | t :: _ => (.ok t, d')

/-- `Deserializer::next_token`, translated from src/de.rs: pop the front of
the queue. -/
def next_token (d : Deserializer) : Except Error Token × Deserializer :=
  match parse_more_if_needed d with
  | (.error e, d') => (.error e, d')
  | (.ok _, d') =>
    match d'.parsed_input with
    | [] => (.error .EarlyEOF, d')
    | t :: rest => (.ok t, { d' with parsed_input := rest })

/-- `Deserializer::next_token_item`, translated from src/de.rs: the next
token, required to be an `Item`. -/
def next_token_item (d : Deserializer) : Except Error (List Char) × Deserializer :=
  match next_token d with
  | (.error e, d') => (.error e, d')
  | (.ok (.item s), d') => (.ok s, d')
  | (.ok got, d') => (.error (.Expected "Item".data (tokenDebug got)), d')

/-! ## Integer widths and decimal text -/

/-- The machine integer widths of the Rust numeric types. -/
inductive IntWidth where
  | i8 | i16 | i32 | i64 | u8 | u16 | u32 | u64
deriving DecidableEq, Repr

/-- Whether the width is a signed type. -/
def IntWidth.signed : IntWidth → Bool
  | .i8 | .i16 | .i32 | .i64 => true
  | _ => false

/-- Lower bound (inclusive) of the width's value range. -/
def IntWidth.lo : IntWidth → Int
  | .i8 => -(2 ^ 7) | .i16 => -(2 ^ 15) | .i32 => -(2 ^ 31) | .i64 => -(2 ^ 63)
  | _ => 0

/-- Upper bound (inclusive) of the width's value range. -/
def IntWidth.hi : IntWidth → Int
  | .i8 => 2 ^ 7 - 1 | .i16 => 2 ^ 15 - 1 | .i32 => 2 ^ 31 - 1 | .i64 => 2 ^ 63 - 1
  | .u8 => 2 ^ 8 - 1 | .u16 => 2 ^ 16 - 1 | .u32 => 2 ^ 32 - 1 | .u64 => 2 ^ 64 - 1

/-- Membership of an integer in a width's value range. -/
def inIntRange (w : IntWidth) (n : Int) : Prop := w.lo ≤ n ∧ n ≤ w.hi

instance (w : IntWidth) (n : Int) : Decidable (inIntRange w n) := by
  unfold inIntRange; infer_instance

/-- The decimal digit character for `n < 10`. -/
def digitChar (n : Nat) : Char := Char.ofNat (48 + n)

/-- Decimal digits of a natural number, most significant first, with an
explicit recursion budget (`fuel > n` suffices). -/
def natDigitsAux : Nat → Nat → List Char
  | 0, _ => []
  | f + 1, n =>
    if n < 10 then [digitChar n]
    else natDigitsAux f (n / 10) ++ [digitChar (n % 10)]

/-- Decimal digits of a natural number, most significant first, as produced
by Rust's integer `Display`. -/
def natDigits (n : Nat) : List Char := natDigitsAux (n + 1) n

/-- Rust `i64`/`u64` `Display`: optional minus sign followed by the decimal
digits of the absolute value. -/
def intRepr (n : Int) : List Char :=
  if n < 0 then '-' :: natDigits n.natAbs else natDigits n.natAbs

/-- Whether a character is a decimal digit. -/
def isDigitChar (c : Char) : Bool := 48 ≤ c.toNat && c.toNat ≤ 57

/-- Numeric value of a list of decimal digit characters. -/
def digitsVal (s : List Char) : Nat :=
  s.foldl (fun a c => a * 10 + (c.toNat - 48)) 0

/-- Parse a nonempty all-digit string to its value, as Rust's integer
`from_str` does after sign handling. -/
def parseDigits (s : List Char) : Option Nat :=
  if s ≠ [] ∧ s.all isDigitChar then some (digitsVal s) else none

/-- Rust `<iN/uN as FromStr>::from_str`: optional `+`/`-` sign (a minus sign
is an invalid digit for unsigned types), decimal digits, range check. -/
def parseIntText (w : IntWidth) (s : List Char) : Option Int :=
  let stripped : Bool × List Char :=
    match s with
    | [] => (false, [])
    | c :: r => if c = '+' then (false, r) else if c = '-' then (true, r) else (false, c :: r)
  if stripped.1 && !w.signed then none
  else
    match parseDigits stripped.2 with
    | none => none
    | some v =>
      let val : Int := if stripped.1 then -(v : Int) else (v : Int)
      if inIntRange w val then some val else none

/-! ## Floating point, modelled abstractly

Rust formats `f64` via its `Display` implementation and parses `f32`/`f64`
via `FromStr`; those routines live in the standard library, outside this
repository, so they are modelled abstractly by their documented contract:
`Display` of a float produces a decimal (or `inf`/`NaN`) text free of
quotes and backslashes whose reparse recovers the value. -/

/-- Modelled from the spec: the textual codec of the float types, abstracting
the standard library's `f64::to_string`, `f32::from_str`, `f64::from_str`
and the exact `f32 → f64` widening. -/
structure FloatModel where
  F32 : Type
  F64 : Type
  widen32 : F32 → F64
  fmt64 : F64 → List Char
  parseF32 : List Char → Option F32
  parseF64 : List Char → Option F64

/-- The documented contract of the standard float codec: formatting
round-trips through parsing (for `f32`, after the exact widening), and the
formatted text never contains a quote or backslash. -/
structure FloatModelOk (M : FloatModel) : Prop where
  parse64_fmt : ∀ x, M.parseF64 (M.fmt64 x) = some x
  parse32_fmt : ∀ x, M.parseF32 (M.fmt64 (M.widen32 x)) = some x
  fmt_raw : ∀ x c, c ∈ M.fmt64 x → c ≠ '"' ∧ c ≠ '\\'

/-! ## The serde data model restricted to this codec's shapes -/

mutual
/-- Shapes a decode can be requested at: the serde data model as driven
through `de.rs` (scalars, strings, chars, unit-like enums, options,
newtype wrappers, structs, string-keyed maps, and the shapes `de.rs`
rejects outright). -/
inductive VdfType where
  | tBool
  | tInt (w : IntWidth)
  | tF32
  | tF64
  | tChar
  | tString
  | tEnum (variants : List (List Char))
  | tOption (t : VdfType)
  | tNewtype (name : List Char) (t : VdfType)
  | tStruct (name : List Char) (fields : VdfTFields)
  | tMap (vt : VdfType)
  | tAny
  | tBytes
  | tUnit
  | tUnitStruct (name : List Char)
  | tSeq
  | tTuple (n : Nat)
  | tTupleStruct (name : List Char)
/-- Declared fields of a struct shape: name/shape pairs in declaration order. -/
inductive VdfTFields where
  | nil
  | cons (k : List Char) (t : VdfType) (rest : VdfTFields)
end

mutual
/-- Values of the supported shapes (parameterized by the float model). -/
inductive VdfValue (M : FloatModel) where
  | vBool (b : Bool)
  | vInt (w : IntWidth) (n : Int)
  | vF32 (x : M.F32)
  | vF64 (x : M.F64)
  | vChar (c : Char)
  | vStr (s : List Char)
  | vVariant (s : List Char)
  | vSome (v : VdfValue M)
  | vNewtype (v : VdfValue M)
  | vStruct (name : List Char) (fields : VdfVFields M)
  | vMap (entries : VdfVFields M)
/-- Field values of a struct or map value, in order. -/
inductive VdfVFields (M : FloatModel) where
  | nil
  | cons (k : List Char) (v : VdfValue M) (rest : VdfVFields M)
end

mutual
/-- Size of a shape, used only for the decode recursion budget. -/
def sizeT : VdfType → Nat
  | .tOption t => 1 + sizeT t
  | .tNewtype _ t => 1 + sizeT t
  | .tStruct _ fs => 1 + sizeTF fs
  | .tMap t => 1 + sizeT t
  | _ => 1
def sizeTF : VdfTFields → Nat
  | .nil => 1
  | .cons _ t r => 1 + sizeT t + sizeTF r
end

/-! ## Encoder, translated from src/ser.rs -/

/-- Encoder state, translated from src/ser.rs (`struct Serializer`). -/
structure Serializer where
  output : List Char
  indent_level : Nat
deriving DecidableEq, Repr

/-- Append text to the output buffer (`self.output += ...`). -/
def Serializer.push (s : Serializer) (t : List Char) : Serializer :=
  { s with output := s.output ++ t }

/-- Indentation: one tab per level (`"\t".repeat(indent_level)`). -/
def tabs (n : Nat) : List Char := List.replicate n '\t'

/-- `serialize_bool`, translated from src/ser.rs: the quoted literal
`"1"` or `"0"`. -/
def Serializer.serialize_bool (s : Serializer) (v : Bool) : Serializer :=
  s.push (if v then "\"1\"".data else "\"0\"".data)

/-- `serialize_i64`, translated from src/ser.rs: the decimal text of the
value wrapped in double quotes. -/
def Serializer.serialize_i64 (s : Serializer) (v : Int) : Serializer :=
  s.push ('"' :: intRepr v ++ ['"'])

/-- `serialize_u64`, translated from src/ser.rs. -/
def Serializer.serialize_u64 (s : Serializer) (v : Int) : Serializer :=
  s.push ('"' :: intRepr v ++ ['"'])

/-- The narrower integer serializers of src/ser.rs widen to `i64`/`u64`
(`i64::from` / `u64::from` preserves the represented integer) and delegate. -/
def Serializer.serialize_int (s : Serializer) (w : IntWidth) (v : Int) : Serializer :=
  match w with
  | .i8 | .i16 | .i32 => s.serialize_i64 v
  | .i64 => s.serialize_i64 v
  | .u8 | .u16 | .u32 => s.serialize_u64 v
  | .u64 => s.serialize_u64 v

/-- Rust `str::replace` with a single-character pattern: every occurrence
of `c` becomes `rep`, left to right. -/
def replaceAll (l : List Char) (c : Char) (rep : List Char) : List Char :=
  l.flatMap fun a => if a = c then rep else [a]

/-- The escaping chain of `serialize_str`, translated from src/ser.rs:
replace backslash, then newline, then tab, then double quote. -/
def escapeVdf (v : List Char) : List Char :=
  replaceAll (replaceAll (replaceAll (replaceAll v '\\' ['\\', '\\'])
    '\n' ['\\', 'n']) '\t' ['\\', 't']) '"' ['\\', '"']

/-- `serialize_str`, translated from src/ser.rs: the escaped text wrapped
in double quotes. -/
def Serializer.serialize_str (s : Serializer) (v : List Char) : Serializer :=
  s.push ('"' :: escapeVdf v ++ ['"'])

/-- `serialize_char`, translated from src/ser.rs: a one-character string. -/
def Serializer.serialize_char (s : Serializer) (c : Char) : Serializer :=
  s.serialize_str [c]

/-- `serialize_f64`, translated from src/ser.rs: the `Display` text of the
double wrapped in double quotes (float formatting per the float model). -/
def Serializer.serialize_f64 (M : FloatModel) (s : Serializer) (x : M.F64) : Serializer :=
  s.push ('"' :: M.fmt64 x ++ ['"'])

/-- `serialize_f32`, translated from src/ser.rs: widen to `f64` and delegate. -/
def Serializer.serialize_f32 (M : FloatModel) (s : Serializer) (x : M.F32) : Serializer :=
  s.serialize_f64 M (M.widen32 x)

/-- `serialize_map` entry, translated from src/ser.rs: trim one trailing
tab if present, then newline, indentation, opening brace, newline, and
one more indent level. -/
def Serializer.open_map (s : Serializer) : Serializer :=
  let o := if s.output.getLast? = some '\t' then s.output.dropLast else s.output
  { output := o ++ '\n' :: tabs s.indent_level ++ '{' :: ['\n'],
    indent_level := s.indent_level + 1 }

/-- `SerializeMap::end`, translated from src/ser.rs: drop one indent level
(saturating) and write the indented closing brace. -/
def Serializer.end_map (s : Serializer) : Serializer :=
  { output := s.output ++ tabs (s.indent_level - 1) ++ ['}'],
    indent_level := s.indent_level - 1 }

mutual
/-- The encoder driver: how `T::serialize` walks a value of the supported
universe through the `Serializer` of src/ser.rs.  Scalars, strings, chars
and unit variants use the serializers above; `serialize_some` and
`serialize_newtype_struct` forward to the inner value; `serialize_struct`
writes the quoted declared name first when at indent level 0 and then
behaves as `serialize_map`; map/struct entries follow `SerializeMap`:
indentation, key via `serialize_str`, a tab, the value, a newline. -/
def serializeValue (M : FloatModel) : Serializer → VdfValue M → Serializer
  | s, .vBool b => s.serialize_bool b
  | s, .vInt w n => s.serialize_int w n
  | s, .vF32 x => s.serialize_f32 M x
  | s, .vF64 x => s.serialize_f64 M x
  | s, .vChar c => s.serialize_char c
  | s, .vStr t => s.serialize_str t
  | s, .vVariant t => s.serialize_str t
  | s, .vSome v => serializeValue M s v
  | s, .vNewtype v => serializeValue M s v
  | s, .vStruct name fields =>
    let s1 := if s.indent_level = 0 then s.push ('"' :: name ++ ['"']) else s
    (serializeFields M s1.open_map fields).end_map
  | s, .vMap entries =>
    (serializeFields M s.open_map entries).end_map
/-- One map/struct entry after another, as `serialize_key` followed by
`serialize_value` in src/ser.rs. -/
def serializeFields (M : FloatModel) : Serializer → VdfVFields M → Serializer
  | s, .nil => s
  | s, .cons k v rest =>
    let s1 := ((s.push (tabs s.indent_level)).serialize_str k).push ['\t']
    serializeFields M ((serializeValue M s1 v).push ['\n']) rest
end

/-- `to_string`, translated from src/ser.rs: serialize from a fresh
serializer and return the output buffer.  On this value universe the
source's `Result` is always `Ok` (the error arms of ser.rs concern only
shapes outside the universe), so the output is returned directly. -/
def to_string (M : FloatModel) (v : VdfValue M) : List Char :=
  (serializeValue M ⟨[], 0⟩ v).output

/-! ## Decoder, translated from src/de.rs -/

/-- Look up a declared field's shape by key. -/
def VdfTFields.find? : VdfTFields → List Char → Option VdfType
  | .nil, _ => none
  | .cons k t rest, key => if k = key then some t else rest.find? key

/-- Convert collected entries to ordered field values. -/
def listToVFields (M : FloatModel) : List (List Char × VdfValue M) → VdfVFields M
  | [] => .nil
  | (k, v) :: rest => .cons k v (listToVFields M rest)

/-- Modelled from the spec: rebuilding a struct from the collected entries
in declared field order, as the generic framework's derived visitor does;
a declared field that never appeared is a missing-field error. -/
def buildStruct (M : FloatModel) :
    VdfTFields → List (List Char × VdfValue M) → Option (VdfVFields M)
  | .nil, _ => some .nil
  | .cons k _ rest, seen =>
    match seen.lookup k, buildStruct M rest seen with
    | some v, some done => some (.cons k v done)
    | _, _ => none

/-- Modelled from the spec: the `MapAccess` loop of `TabNewlineSeparated`
(src/de.rs) as driven by the generic framework: peek; stop before a
`GroupEnd`; otherwise decode one key via the string/identifier route
(`next_token_item`), reject duplicate struct fields, and decode the value
with `step`.  The explicit budget only bounds the iteration count. -/
def entryLoop (M : FloatModel) (checkDup : Bool)
    (step : List Char → Deserializer → Except Error (VdfValue M) × Deserializer) :
    Nat → List (List Char × VdfValue M) → Deserializer →
    Except Error (List (List Char × VdfValue M)) × Deserializer
  | 0, _, d => (.error (.Message "recursion limit reached".data), d)
  | f + 1, seen, d =>
    match peek_token d with
    | (.error e, d') => (.error e, d')
    | (.ok t, d') =>
      if t = .groupEnd then (.ok seen, d')
      else
        match next_token_item d' with
        | (.error e, d2) => (.error e, d2)
        | (.ok k, d2) =>
          if checkDup && (seen.map Prod.fst).contains k then
            (.error (.Message ("duplicate field ".data ++ k)), d2)
          else
            match step k d2 with
            | (.error e, d3) => (.error e, d3)
            | (.ok v, d3) => entryLoop M checkDup step f (seen ++ [(k, v)]) d3

/-- The decode driver, translated from src/de.rs: the behavior of
`T::deserialize` for each requestable shape against `&mut Deserializer`.
The explicit budget only bounds recursion depth and loop iterations;
every call decrements it. -/
def decodeType (M : FloatModel) :
    Nat → VdfType → Deserializer → Except Error (VdfValue M) × Deserializer
  | 0, _, d => (.error (.Message "recursion limit reached".data), d)
  | f + 1, t, d =>
    match t with
    | .tAny => (.error (.UnsupportedType "any".data), d)
    | .tBytes => (.error (.UnsupportedType "byte array".data), d)
    | .tUnit => (.error (.UnsupportedType "unit".data), d)
    | .tUnitStruct _ => (.error (.UnsupportedType "unit_struct".data), d)
    | .tSeq => (.error (.UnsupportedType "seq".data), d)
    | .tTuple _ => (.error (.UnsupportedType "tuple".data), d)
    | .tTupleStruct _ => (.error (.UnsupportedType "tuple_struct".data), d)
    | .tBool =>
      match next_token d with
      | (.error e, d') => (.error e, d')
      | (.ok (.item s), d') =>
        if s = "0".data then (.ok (.vBool false), d')
        else if s = "1".data then (.ok (.vBool true), d')
        else (.error (.Expected "bool (\"0\" or \"1\")".data (tokenDebug (.item s))), d')
      | (.ok got, d') => (.error (.Expected "bool (\"0\" or \"1\")".data (tokenDebug got)), d')
    | .tInt w =>
      match next_token_item d with
      | (.error e, d') => (.error e, d')
      | (.ok s, d') =>
        match parseIntText w s with
        | some n => (.ok (.vInt w n), d')
        | none => (.error (.StringParse "invalid digit or out of range".data), d')
    | .tF32 =>
      match next_token_item d with
      | (.error e, d') => (.error e, d')
      | (.ok s, d') =>
        match M.parseF32 s with
        | some x => (.ok (.vF32 x), d')
        | none => (.error (.StringParse "invalid float literal".data), d')
    | .tF64 =>
      match next_token_item d with
      | (.error e, d') => (.error e, d')
      | (.ok s, d') =>
        match M.parseF64 s with
        | some x => (.ok (.vF64 x), d')
        | none => (.error (.StringParse "invalid float literal".data), d')
    | .tChar =>
      match next_token_item d with
      | (.error e, d') => (.error e, d')
      | (.ok s, d') =>
        match s with
        | [c] => (.ok (.vChar c), d')
        | _ => (.error (.StringParse "too many characters in string".data), d')
    | .tString =>
      match next_token_item d with
      | (.error e, d') => (.error e, d')
      | (.ok s, d') => (.ok (.vStr s), d')
    | .tEnum variants =>
      match next_token_item d with
      | (.error e, d') => (.error e, d')
      | (.ok s, d') =>
        if variants.contains s then (.ok (.vVariant s), d')
        else (.error (.Message ("unknown variant ".data ++ s)), d')
    | .tOption t' =>
      match decodeType M f t' d with
      | (.error e, d') => (.error e, d')
      | (.ok v, d') => (.ok (.vSome v), d')
    | .tNewtype name t' =>
      if d.top_level then
        match next_token d with
        | (.error e, d') => (.error e, d')
        | (.ok tok, d') =>
          if tok = .item name then
            match decodeType M f t' { d' with top_level := false } with
            | (.error e, d2) => (.error e, d2)
            | (.ok v, d2) => (.ok (.vNewtype v), d2)
          else (.error (.Expected name (tokenDebug tok)), d')
      else
        match decodeType M f t' d with
        | (.error e, d') => (.error e, d')
        | (.ok v, d') => (.ok (.vNewtype v), d')
    | .tStruct name fields =>
      let afterName : Except Error Unit × Deserializer :=
        if d.top_level then
          match next_token d with
          | (.error e, d') => (.error e, d')
          | (.ok tok, d') =>
            if tok = .item name then (.ok (), { d' with top_level := false })
            else (.error (.Expected name (tokenDebug tok)), d')
        else (.ok (), d)
      match afterName with
      | (.error e, d') => (.error e, d')
      | (.ok _, d1) =>
        match next_token d1 with
        | (.error e, d2) => (.error e, d2)
        | (.ok .groupStart, d2) =>
          match entryLoop M true
              (fun k dd =>
                match fields.find? k with
                | some vt => decodeType M f vt dd
                | none => (.error (.UnsupportedType "any".data), dd))
              f [] d2 with
          | (.error e, d3) => (.error e, d3)
          | (.ok seen, d3) =>
            match buildStruct M fields seen with
            | none => (.error (.Message "missing field".data), d3)
            | some vf =>
              match next_token d3 with
              | (.error e, d4) => (.error e, d4)
              | (.ok .groupEnd, d4) => (.ok (.vStruct name vf), d4)
              | (.ok got, d4) => (.error (.Expected "'\x7d'".data (tokenDebug got)), d4)
        | (.ok got, d2) => (.error (.Expected "'\x7b'".data (tokenDebug got)), d2)
    | .tMap vt =>
      match next_token d with
      | (.error e, d2) => (.error e, d2)
      | (.ok .groupStart, d2) =>
        match entryLoop M false (fun _ dd => decodeType M f vt dd) f [] d2 with
        | (.error e, d3) => (.error e, d3)
        | (.ok seen, d3) =>
          match next_token d3 with
          | (.error e, d4) => (.error e, d4)
          | (.ok .groupEnd, d4) => (.ok (.vMap (listToVFields M seen)), d4)
          | (.ok got, d4) => (.error (.Expected "'\x7d'".data (tokenDebug got)), d4)
      | (.ok got, d2) => (.error (.Expected "'\x7b'".data (tokenDebug got)), d2)

/-- `from_str`, translated from src/de.rs: decode one value from a fresh
deserializer, then require the remaining input to be only whitespace,
otherwise `LateEOF`.  The Rust recursion carries no budget; the model's
budget is chosen large enough to dominate every terminating run used in
the theorems below. -/
def from_str (M : FloatModel) (t : VdfType) (s : List Char) :
    Except Error (VdfValue M) :=
  match decodeType M ((sizeT t + 1) * (s.length + 1)) t (Deserializer.fromStr s) with
  | (.error e, _) => .error e
  | (.ok v, d') => if trimEnd d'.input = [] then .ok v else .error .LateEOF

/-! ## Decimal text: printing then parsing is the identity -/

lemma digitsVal_append (l : List Char) (c : Char) :
    digitsVal (l ++ [c]) = digitsVal l * 10 + (c.toNat - 48) := by
  simp [digitsVal, List.foldl_append]

lemma digitChar_toNat {m : Nat} (h : m < 10) : (digitChar m).toNat = 48 + m := by
  interval_cases m <;> decide

lemma isDigitChar_digitChar {m : Nat} (h : m < 10) :
    isDigitChar (digitChar m) = true := by
  interval_cases m <;> decide

lemma natDigitsAux_spec :
    ∀ f n, n < f →
      natDigitsAux f n ≠ [] ∧ (∀ c ∈ natDigitsAux f n, isDigitChar c = true) ∧
        digitsVal (natDigitsAux f n) = n := by
  intro f
  induction f with
  | zero => intro n h; omega
  | succ f ih =>
    intro n h
    by_cases h10 : n < 10
    · refine ⟨by simp [natDigitsAux, h10], ?_, ?_⟩
      · intro c hc
        simp [natDigitsAux, h10] at hc
        subst hc
        exact isDigitChar_digitChar h10
      · simp [natDigitsAux, h10, digitsVal, digitChar_toNat h10]
    · have hdiv : n / 10 < f := by
        have h1 : n / 10 < n := Nat.div_lt_self (by omega) (by omega)
        omega
      obtain ⟨hne, hdig, hval⟩ := ih (n / 10) hdiv
      have hmod : n % 10 < 10 := Nat.mod_lt _ (by omega)
      refine ⟨by simp [natDigitsAux, h10], ?_, ?_⟩
      · intro c hc
        simp [natDigitsAux, h10] at hc
        rcases hc with hc | hc
        · exact hdig c hc
        · subst hc; exact isDigitChar_digitChar hmod
      · rw [natDigitsAux, if_neg h10, digitsVal_append, hval, digitChar_toNat hmod]
        omega

lemma natDigits_ne_nil (n : Nat) : natDigits n ≠ [] :=
  (natDigitsAux_spec (n + 1) n (by omega)).1

lemma natDigits_digits (n : Nat) : ∀ c ∈ natDigits n, isDigitChar c = true :=
  (natDigitsAux_spec (n + 1) n (by omega)).2.1

lemma digitsVal_natDigits (n : Nat) : digitsVal (natDigits n) = n :=
  (natDigitsAux_spec (n + 1) n (by omega)).2.2

lemma parseDigits_natDigits (n : Nat) : parseDigits (natDigits n) = some n := by
  rw [parseDigits, if_pos, digitsVal_natDigits]
  exact ⟨natDigits_ne_nil n, List.all_eq_true.2 (natDigits_digits n)⟩

lemma isDigitChar_not_sign {c : Char} (h : isDigitChar c = true) :
    c ≠ '+' ∧ c ≠ '-' ∧ c ≠ '"' ∧ c ≠ '\\' := by
  simp only [isDigitChar, Bool.and_eq_true, decide_eq_true_eq] at h
  refine ⟨?_, ?_, ?_, ?_⟩ <;> rintro rfl <;> simp at h

/-- Unsigned widths have lower bound zero. -/
lemma IntWidth.lo_of_unsigned {w : IntWidth} (h : w.signed = false) : w.lo = 0 := by
  cases w <;> simp_all [IntWidth.signed, IntWidth.lo]

lemma parseIntText_intRepr {w : IntWidth} {n : Int} (h : inIntRange w n) :
    parseIntText w (intRepr n) = some n := by
  by_cases hn : n < 0
  · have hsigned : w.signed = true := by
      rcases h with ⟨hlo, _⟩
      by_contra hs
      simp only [Bool.not_eq_true] at hs
      rw [IntWidth.lo_of_unsigned hs] at hlo
      omega
    rw [intRepr, if_pos hn, parseIntText]
    have habs : -((n.natAbs : Nat) : Int) = n := by omega
    simp [hsigned, parseDigits_natDigits, habs, h]
    rw [abs_of_neg hn, neg_neg]
    exact ⟨h, rfl⟩
  · push_neg at hn
    rw [intRepr, if_neg (by omega)]
    have hne := natDigits_ne_nil n.natAbs
    have hdigs := natDigits_digits n.natAbs
    rcases hhead : natDigits n.natAbs with _ | ⟨c, r⟩
    · exact absurd hhead hne
    · have hc : isDigitChar c = true := hdigs c (by rw [hhead]; exact List.mem_cons_self c r)
      obtain ⟨hplus, hminus, _, _⟩ := isDigitChar_not_sign hc
      rw [parseIntText]
      simp only [if_neg hplus, if_neg hminus]
      rw [← hhead, parseDigits_natDigits]
      have habs : ((n.natAbs : Nat) : Int) = n := by omega
      simp [habs, h]

/-! ## String escaping lemmas -/

/-- Per-character escaping table: the image of one character under the full
replacement chain of `serialize_str` (the spec's description, section 4.2,
read as a character-by-character substitution). -/
def escChar (c : Char) : List Char :=
  if c = '\\' then ['\\', '\\']
  else if c = '\n' then ['\\', 'n']
  else if c = '\t' then ['\\', 't']
  else if c = '"' then ['\\', '"']
  else [c]

lemma replaceAll_append (a b : List Char) (c : Char) (rep : List Char) :
    replaceAll (a ++ b) c rep = replaceAll a c rep ++ replaceAll b c rep := by
  simp [replaceAll]

lemma escapeVdf_nil : escapeVdf [] = [] := rfl

lemma escapeVdf_append (a b : List Char) :
    escapeVdf (a ++ b) = escapeVdf a ++ escapeVdf b := by
  simp [escapeVdf, replaceAll_append]

lemma escapeVdf_single (c : Char) : escapeVdf [c] = escChar c := by
  by_cases h1 : c = '\\'
  · subst h1; rfl
  · by_cases h2 : c = '\n'
    · subst h2; rfl
    · by_cases h3 : c = '\t'
      · subst h3; rfl
      · by_cases h4 : c = '"'
        · subst h4; rfl
        · simp [escapeVdf, replaceAll, escChar, h1, h2, h3, h4]

lemma escapeVdf_cons (c : Char) (r : List Char) :
    escapeVdf (c :: r) = escChar c ++ escapeVdf r := by
  have h : c :: r = [c] ++ r := rfl
  rw [h, escapeVdf_append, escapeVdf_single]

/-- The replacement chain acts character by character: escaping backslashes
first means later replacements never touch characters introduced by earlier
ones, so the chain equals a single per-character substitution. -/
lemma escapeVdf_eq_flatMap (s : List Char) : escapeVdf s = s.flatMap escChar := by
  induction s with
  | nil => rfl
  | cons c r ih => rw [escapeVdf_cons, ih, List.flatMap_cons]

/-! ## Tokenizer lemmas -/

lemma scanQuoted_close (l acc : List Char) :
    scanQuoted ('"' :: l) acc = .done (.item acc) l := by
  rw [scanQuoted.eq_def]; simp

lemma scanQuoted_esc_step (e : Char) (l acc : List Char) :
    scanQuoted ('\\' :: e :: l) acc = scanQuoted l (acc ++ [unescChar e]) := by
  rw [scanQuoted.eq_def]; simp

lemma scanQuoted_plain {c : Char} (h1 : c ≠ '\\') (h2 : c ≠ '"') (l acc : List Char) :
    scanQuoted (c :: l) acc = scanQuoted l (acc ++ [c]) := by
  rw [scanQuoted.eq_def]
  simp [h1, h2]

lemma scanQuoted_raw :
    ∀ s acc rest, (∀ c ∈ s, c ≠ '"' ∧ c ≠ '\\') →
      scanQuoted (s ++ '"' :: rest) acc = .done (.item (acc ++ s)) rest := by
  intro s
  induction s with
  | nil => intro acc rest _; simp [scanQuoted_close]
  | cons c r ih =>
    intro acc rest h
    have hc := h c (List.mem_cons_self c r)
    have hr : ∀ x ∈ r, x ≠ '"' ∧ x ≠ '\\' := fun x hx => h x (List.mem_cons_of_mem c hx)
    rw [List.cons_append, scanQuoted_plain hc.2 hc.1, ih (acc ++ [c]) rest hr]
    simp

lemma scanQuoted_escaped :
    ∀ s acc rest,
      scanQuoted (s.flatMap escChar ++ '"' :: rest) acc = .done (.item (acc ++ s)) rest := by
  intro s
  induction s with
  | nil => intro acc rest; simp [scanQuoted_close]
  | cons c r ih =>
    intro acc rest
    by_cases h1 : c = '\\'
    · subst h1
      rw [List.flatMap_cons, show escChar '\\' = ['\\', '\\'] from rfl]
      rw [show ['\\', '\\'] ++ r.flatMap escChar ++ '"' :: rest
            = '\\' :: '\\' :: (r.flatMap escChar ++ '"' :: rest) from by simp]
      rw [scanQuoted_esc_step, show unescChar '\\' = '\\' from rfl,
        ih (acc ++ ['\\']) rest]
      simp
    · by_cases h2 : c = '\n'
      · subst h2
        rw [List.flatMap_cons, show escChar '\n' = ['\\', 'n'] from rfl]
        rw [show ['\\', 'n'] ++ r.flatMap escChar ++ '"' :: rest
              = '\\' :: 'n' :: (r.flatMap escChar ++ '"' :: rest) from by simp]
        rw [scanQuoted_esc_step, show unescChar 'n' = '\n' from rfl,
          ih (acc ++ ['\n']) rest]
        simp
      · by_cases h3 : c = '\t'
        · subst h3
          rw [List.flatMap_cons, show escChar '\t' = ['\\', 't'] from rfl]
          rw [show ['\\', 't'] ++ r.flatMap escChar ++ '"' :: rest
                = '\\' :: 't' :: (r.flatMap escChar ++ '"' :: rest) from by simp]
          rw [scanQuoted_esc_step, show unescChar 't' = '\t' from rfl,
            ih (acc ++ ['\t']) rest]
          simp
        · by_cases h4 : c = '"'
          · subst h4
            rw [List.flatMap_cons, show escChar '"' = ['\\', '"'] from rfl]
            rw [show ['\\', '"'] ++ r.flatMap escChar ++ '"' :: rest
                  = '\\' :: '"' :: (r.flatMap escChar ++ '"' :: rest) from by simp]
            rw [scanQuoted_esc_step, show unescChar '"' = '"' from rfl,
              ih (acc ++ ['"']) rest]
            simp
          · rw [List.flatMap_cons, show escChar c = [c] from by simp [escChar, h1, h2, h3, h4]]
            rw [show [c] ++ r.flatMap escChar ++ '"' :: rest
                  = c :: (r.flatMap escChar ++ '"' :: rest) from by simp]
            rw [scanQuoted_plain h1 h4, ih (acc ++ [c]) rest]
            simp

lemma nextTok_ws :
    ∀ w, (∀ c ∈ w, isWsChar c = true) → ∀ l, nextTok (w ++ l) = nextTok l := by
  intro w
  induction w with
  | nil => intro _ l; rfl
  | cons c r ih =>
    intro h l
    have hc := h c (List.mem_cons_self c r)
    rw [List.cons_append, nextTok, if_pos hc, ih (fun x hx => h x (List.mem_cons_of_mem c hx)) l]

lemma nextTok_tabs (n : Nat) (l : List Char) : nextTok (tabs n ++ l) = nextTok l :=
  nextTok_ws (tabs n) (fun c hc => by simp [tabs] at hc; simp [hc, isWsChar]) l

lemma nextTok_newline (l : List Char) : nextTok ('\n' :: l) = nextTok l := by
  rw [show ('\n' :: l) = ['\n'] ++ l from rfl]
  exact nextTok_ws ['\n'] (by intro c hc; simp at hc; simp [hc, isWsChar]) l

lemma nextTok_quote_gen (l : List Char) : nextTok ('"' :: l) = scanQuoted l [] := by
  simp [nextTok, isWsChar]

lemma nextTok_quote (s rest : List Char) (h : ∀ c ∈ s, c ≠ '"' ∧ c ≠ '\\') :
    nextTok ('"' :: (s ++ '"' :: rest)) = .done (.item s) rest := by
  rw [nextTok_quote_gen]
  simpa using scanQuoted_raw s [] rest h

lemma nextTok_escaped (s rest : List Char) :
    nextTok ('"' :: (s.flatMap escChar ++ '"' :: rest)) = .done (.item s) rest := by
  rw [nextTok_quote_gen]
  simpa using scanQuoted_escaped s [] rest

lemma nextTok_open_brace (r : List Char) : nextTok ('{' :: r) = .done .groupStart r := by
  rfl

lemma nextTok_close_brace (r : List Char) : nextTok ('}' :: r) = .done .groupEnd r := by
  rfl

/-! ## Deserializer stepping lemmas -/

lemma next_token_pull (i : List Char) (t : Token) (rest : List Char) (tl : Bool)
    (h : nextTok i = .done t rest) :
    next_token ⟨i, [], tl⟩ = (.ok t, ⟨rest, [], tl⟩) := by
  simp [next_token, parse_more_if_needed, parse_more, h]

lemma next_token_pop (i : List Char) (t : Token) (q : List Token) (tl : Bool) :
    next_token ⟨i, t :: q, tl⟩ = (.ok t, ⟨i, q, tl⟩) := by
  simp [next_token, parse_more_if_needed]

lemma peek_token_pull (i : List Char) (t : Token) (rest : List Char) (tl : Bool)
    (h : nextTok i = .done t rest) :
    peek_token ⟨i, [], tl⟩ = (.ok t, ⟨rest, [t], tl⟩) := by
  simp [peek_token, parse_more_if_needed, parse_more, h]

lemma peek_token_pop (i : List Char) (t : Token) (q : List Token) (tl : Bool) :
    peek_token ⟨i, t :: q, tl⟩ = (.ok t, ⟨i, t :: q, tl⟩) := by
  simp [peek_token, parse_more_if_needed]

lemma next_token_item_pull (i : List Char) (s rest : List Char) (tl : Bool)
    (h : nextTok i = .done (.item s) rest) :
    next_token_item ⟨i, [], tl⟩ = (.ok s, ⟨rest, [], tl⟩) := by
  simp [next_token_item, next_token_pull i (.item s) rest tl h]

lemma next_token_item_pop (i : List Char) (s : List Char) (q : List Token) (tl : Bool) :
    next_token_item ⟨i, .item s :: q, tl⟩ = (.ok s, ⟨i, q, tl⟩) := by
  simp [next_token_item, next_token_pop]

/-! ## Pure encoding fragments -/

/-- Whether serializing the value opens a group (reaches `serialize_map`),
looking through the forwarding of options and newtype wrappers. -/
def groupish (M : FloatModel) : VdfValue M → Bool
  | .vStruct _ _ => true
  | .vMap _ => true
  | .vSome v => groupish M v
  | .vNewtype v => groupish M v
  | _ => false

mutual
/-- The text fragment the encoder appends for a value at indent level `i`
(assuming, for group values, that any pending key-separator tab has been
accounted for by the caller). -/
def encVal (M : FloatModel) (i : Nat) : VdfValue M → List Char
  | .vBool b => '"' :: (if b then ['1'] else ['0']) ++ ['"']
  | .vInt _ n => '"' :: intRepr n ++ ['"']
  | .vF32 x => '"' :: M.fmt64 (M.widen32 x) ++ ['"']
  | .vF64 x => '"' :: M.fmt64 x ++ ['"']
  | .vChar c => '"' :: escapeVdf [c] ++ ['"']
  | .vStr s => '"' :: escapeVdf s ++ ['"']
  | .vVariant s => '"' :: escapeVdf s ++ ['"']
  | .vSome v => encVal M i v
  | .vNewtype v => encVal M i v
  | .vStruct name fs =>
    (if i = 0 then '"' :: name ++ ['"'] else []) ++
      '\n' :: tabs i ++ '{' :: '\n' :: (encFields M (i + 1) fs ++ tabs i ++ ['}'])
  | .vMap es =>
    '\n' :: tabs i ++ '{' :: '\n' :: (encFields M (i + 1) es ++ tabs i ++ ['}'])
/-- The text fragment for a run of map/struct entries at indent level `i`. -/
def encFields (M : FloatModel) (i : Nat) : VdfVFields M → List Char
  | .nil => []
  | .cons k v r =>
    tabs i ++ '"' :: escapeVdf k ++ '"' :: (if groupish M v then [] else ['\t']) ++
      encVal M i v ++ '\n' :: encFields M i r
end

/-- The trailing-tab trim of `serialize_map`. -/
def popTab (o : List Char) : List Char :=
  if o.getLast? = some '\t' then o.dropLast else o

lemma popTab_concat_tab (o : List Char) : popTab (o ++ ['\t']) = o := by
  simp [popTab, List.getLast?_concat]

lemma popTab_of_ne {o : List Char} (h : o.getLast? ≠ some '\t') : popTab o = o :=
  if_neg h

lemma popTab_concat_quote (o s : List Char) : popTab (o ++ s ++ ['"']) = o ++ s ++ ['"'] := by
  apply popTab_of_ne
  rw [List.append_assoc, show (s ++ ['"']) = (s ++ ['"']) from rfl, ← List.append_assoc,
    List.getLast?_concat]
  simp

lemma push_mk (o : List Char) (i : Nat) (t : List Char) :
    Serializer.push ⟨o, i⟩ t = ⟨o ++ t, i⟩ := rfl

lemma open_map_mk (o : List Char) (i : Nat) :
    Serializer.open_map ⟨o, i⟩ = ⟨popTab o ++ '\n' :: tabs i ++ '{' :: ['\n'], i + 1⟩ := rfl

lemma end_map_mk (o : List Char) (i : Nat) :
    Serializer.end_map ⟨o, i⟩ = ⟨o ++ tabs (i - 1) ++ ['}'], i - 1⟩ := rfl

mutual
/-- Characterization of the encoder: serializing a value appends exactly its
pure fragment (after the trailing-tab trim when a group is opened), and
leaves the indent level unchanged. -/
theorem serializeValue_frag (M : FloatModel) (v : VdfValue M) :
    ∀ (o : List Char) (i : Nat), (o.getLast? = some '\t' → i ≠ 0) →
      serializeValue M ⟨o, i⟩ v =
        ⟨(if groupish M v then popTab o else o) ++ encVal M i v, i⟩ := by
  match v with
  | .vBool b =>
    intro o i _
    cases b <;>
      simp [serializeValue, Serializer.serialize_bool, push_mk, groupish, encVal]
  | .vInt w n =>
    intro o i _
    cases w <;>
      simp [serializeValue, Serializer.serialize_int, Serializer.serialize_i64,
        Serializer.serialize_u64, push_mk, groupish, encVal]
  | .vF32 x =>
    intro o i _
    simp [serializeValue, Serializer.serialize_f32, Serializer.serialize_f64,
      push_mk, groupish, encVal]
  | .vF64 x =>
    intro o i _
    simp [serializeValue, Serializer.serialize_f64, push_mk, groupish, encVal]
  | .vChar c =>
    intro o i _
    simp [serializeValue, Serializer.serialize_char, Serializer.serialize_str,
      push_mk, groupish, encVal]
  | .vStr t =>
    intro o i _
    simp [serializeValue, Serializer.serialize_str, push_mk, groupish, encVal]
  | .vVariant t =>
    intro o i _
    simp [serializeValue, Serializer.serialize_str, push_mk, groupish, encVal]
  | .vSome v' =>
    intro o i h
    rw [show serializeValue M ⟨o, i⟩ (.vSome v') = serializeValue M ⟨o, i⟩ v' from by
      simp [serializeValue]]
    rw [serializeValue_frag M v' o i h]
    simp [groupish, encVal]
  | .vNewtype v' =>
    intro o i h
    rw [show serializeValue M ⟨o, i⟩ (.vNewtype v') = serializeValue M ⟨o, i⟩ v' from by
      simp [serializeValue]]
    rw [serializeValue_frag M v' o i h]
    simp [groupish, encVal]
  | .vStruct name fs =>
    intro o i h
    rw [show serializeValue M ⟨o, i⟩ (.vStruct name fs) =
        (serializeFields M ((if (⟨o, i⟩ : Serializer).indent_level = 0
          then Serializer.push ⟨o, i⟩ ('"' :: name ++ ['"'])
          else ⟨o, i⟩).open_map) fs).end_map from by
      simp [serializeValue]]
    by_cases hi : i = 0
    · have hlast : o.getLast? ≠ some '\t' := fun hc => (h hc) hi
      have hpop : popTab (o ++ ('"' :: name ++ ['"'])) = o ++ ('"' :: name ++ ['"']) := by
        have := popTab_concat_quote o ('"' :: name)
        simpa using this
      simp only [hi, if_true, push_mk, open_map_mk]
      rw [hpop]
      rw [serializeFields_frag M fs _ (0 + 1) (by omega)]
      rw [end_map_mk]
      rw [popTab_of_ne hlast]
      simp [groupish, encVal, tabs]
    · simp only [if_neg hi, open_map_mk]
      rw [serializeFields_frag M fs _ (i + 1) (by omega)]
      rw [end_map_mk]
      simp [groupish, encVal, hi]
  | .vMap es =>
    intro o i h
    rw [show serializeValue M ⟨o, i⟩ (.vMap es) =
        (serializeFields M (Serializer.open_map ⟨o, i⟩) es).end_map from by
      simp [serializeValue]]
    rw [open_map_mk]
    rw [serializeFields_frag M es _ (i + 1) (by omega)]
    rw [end_map_mk]
    simp [groupish, encVal]
/-- Characterization of the entry writer: entries append exactly their pure
fragment and keep the indent level. -/
theorem serializeFields_frag (M : FloatModel) (fs : VdfVFields M) :
    ∀ (o : List Char) (i : Nat), i ≠ 0 →
      serializeFields M ⟨o, i⟩ fs = ⟨o ++ encFields M i fs, i⟩ := by
  match fs with
  | .nil => intro o i _; simp [serializeFields, encFields]
  | .cons k v r =>
    intro o i hi
    rw [show serializeFields M ⟨o, i⟩ (.cons k v r) =
        serializeFields M ((serializeValue M
          ((Serializer.serialize_str (Serializer.push ⟨o, i⟩ (tabs i)) k).push ['\t']) v).push
          ['\n']) r from by simp [serializeFields]]
    have hs1 : (Serializer.serialize_str (Serializer.push ⟨o, i⟩ (tabs i)) k).push ['\t'] =
        (⟨o ++ tabs i ++ ('"' :: escapeVdf k ++ ['"']) ++ ['\t'], i⟩ : Serializer) := by
      simp [Serializer.serialize_str, push_mk, Serializer.push]
    rw [hs1, serializeValue_frag M v (o ++ tabs i ++ ('"' :: escapeVdf k ++ ['"']) ++ ['\t'])
      i (fun _ => hi)]
    by_cases hg : groupish M v = true
    · rw [if_pos hg]
      rw [show o ++ tabs i ++ ('"' :: escapeVdf k ++ ['"']) ++ ['\t']
          = (o ++ tabs i ++ ('"' :: escapeVdf k ++ ['"'])) ++ ['\t'] from by simp,
        popTab_concat_tab, push_mk]
      rw [serializeFields_frag M r _ i hi]
      simp [encFields, hg]
    · rw [if_neg hg, push_mk]
      rw [serializeFields_frag M r _ i hi]
      simp only [Bool.not_eq_true] at hg
      simp [encFields, hg]
end

/-- The whole document text: serializing from the fresh serializer yields
exactly the level-0 fragment. -/
theorem to_string_eq_encVal (M : FloatModel) (v : VdfValue M) :
    to_string M v = encVal M 0 v := by
  rw [to_string, serializeValue_frag M v [] 0 (by simp)]
  by_cases hg : groupish M v = true <;> simp [hg, popTab]

/-! ## The round-trip universe -/

/-- Text that passes through a quoted token unchanged: no quote and no
backslash (satisfied by Rust identifiers, which name types and variants). -/
def rawItemOk (s : List Char) : Bool :=
  s.all fun c => !(c = '"') && !(c = '\\')

lemma rawItemOk_spec {s : List Char} (h : rawItemOk s = true) :
    ∀ c ∈ s, c ≠ '"' ∧ c ≠ '\\' := by
  intro c hc
  have := List.all_eq_true.1 h c hc
  simp only [Bool.and_eq_true, Bool.not_eq_true', decide_eq_false_iff_not] at this
  exact this

/-- Declared keys of a struct shape. -/
def keysOfT : VdfTFields → List (List Char)
  | .nil => []
  | .cons k _ r => k :: keysOfT r

/-- Field values as key/value pairs, in order. -/
def fieldsPairs (M : FloatModel) : VdfVFields M → List (List Char × VdfValue M)
  | .nil => []
  | .cons k v r => (k, v) :: fieldsPairs M r

mutual
/-- The value/shape pairs of claim C1's round-trip universe: nested records
(with identifier-like declared names and distinct field names) of booleans,
integers of all widths in range, floats, strings, chars, unit-like enum
variants whose tag is among the declared variants, and present optionals. -/
def okC1 (M : FloatModel) : VdfType → VdfValue M → Bool
  | .tBool, .vBool _ => true
  | .tInt w, .vInt w' n => w = w' && decide (inIntRange w n)
  | .tF32, .vF32 _ => true
  | .tF64, .vF64 _ => true
  | .tChar, .vChar _ => true
  | .tString, .vStr _ => true
  | .tEnum vs, .vVariant s => vs.contains s
  | .tOption t, .vSome v => okC1 M t v
  | .tStruct n fs, .vStruct n' vfs => n = n' && rawItemOk n && okC1F M fs vfs
  | _, _ => false
/-- Aligned declared fields and field values: same keys in the same order,
no declared key repeated, every value well-shaped. -/
def okC1F (M : FloatModel) : VdfTFields → VdfVFields M → Bool
  | .nil, .nil => true
  | .cons k t tr, .cons k' v vr =>
    k = k' && !((keysOfT tr).contains k) && okC1 M t v && okC1F M tr vr
  | _, _ => false
end

mutual
/-- Recursion budget sufficient to decode the encoding of a value. -/
def needV (M : FloatModel) : VdfValue M → Nat
  | .vSome v => 1 + needV M v
  | .vNewtype v => 1 + needV M v
  | .vStruct _ fs => 1 + needF M fs
  | .vMap es => 1 + needF M es
  | _ => 1
/-- Budget for the entry loop over a run of fields. -/
def needF (M : FloatModel) : VdfVFields M → Nat
  | .nil => 1
  | .cons _ v r => 1 + needV M v + needF M r
end

/-- The top-level flag after decoding this value: cleared when a named
record was decoded (also through option forwarding), unchanged otherwise. -/
def tlAfter (M : FloatModel) (tl : Bool) : VdfValue M → Bool
  | .vStruct _ _ => false
  | .vSome v => tlAfter M tl v
  | _ => tl

lemma tlAfter_false (M : FloatModel) (v : VdfValue M) : tlAfter M false v = false := by
  match v with
  | .vSome v' =>
    rw [show tlAfter M false (.vSome v') = tlAfter M false v' from rfl]
    exact tlAfter_false M v'
  | .vStruct n fs => rfl
  | .vMap es => rfl
  | .vNewtype v' => rfl
  | .vBool _ => rfl
  | .vInt _ _ => rfl
  | .vF32 _ => rfl
  | .vF64 _ => rfl
  | .vChar _ => rfl
  | .vStr _ => rfl
  | .vVariant _ => rfl

lemma intRepr_raw (n : Int) : ∀ c ∈ intRepr n, c ≠ '"' ∧ c ≠ '\\' := by
  intro c hc
  rw [intRepr] at hc
  by_cases hn : n < 0
  · rw [if_pos hn] at hc
    rcases List.mem_cons.1 hc with hc | hc
    · subst hc; exact ⟨by decide, by decide⟩
    · have := natDigits_digits n.natAbs c hc
      exact ⟨(isDigitChar_not_sign this).2.2.1, (isDigitChar_not_sign this).2.2.2⟩
  · rw [if_neg hn] at hc
    have := natDigits_digits n.natAbs c hc
    exact ⟨(isDigitChar_not_sign this).2.2.1, (isDigitChar_not_sign this).2.2.2⟩

lemma lookup_append_of_not_mem {α β : Type} [BEq α] [LawfulBEq α]
    (a b : List (α × β)) (k : α) (h : ∀ p ∈ a, p.1 ≠ k) :
    (a ++ b).lookup k = b.lookup k := by
  induction a with
  | nil => simp
  | cons p r ih =>
    obtain ⟨pk, pv⟩ := p
    rw [List.cons_append]
    have h1 : (k == pk) = false :=
      beq_false_of_ne fun he => (h (pk, pv) (List.mem_cons_self _ _)) he.symm
    simp only [List.lookup, h1]
    exact ih fun q hq => h q (List.mem_cons_of_mem _ hq)

/-- Rebuilding the struct from in-order collected pairs (possibly after
pairs whose keys are not among the remaining declared ones) recovers the
original field values. -/
lemma buildStruct_pairs_gen (M : FloatModel) :
    ∀ (tfs : VdfTFields) (vfs : VdfVFields M), okC1F M tfs vfs = true →
      ∀ extra : List (List Char × VdfValue M),
        (∀ p ∈ extra, (keysOfT tfs).contains p.1 = false) →
        buildStruct M tfs (extra ++ fieldsPairs M vfs) = some vfs := by
  intro tfs
  match tfs with
  | .nil =>
    intro vfs hok extra _
    cases vfs with
    | nil => simp [buildStruct]
    | cons k v r => simp [okC1F] at hok
  | .cons k t tr =>
    intro vfs hok extra hextra
    cases vfs with
    | nil => simp [okC1F] at hok
    | cons k' v vr =>
      simp only [okC1F, Bool.and_eq_true, decide_eq_true_eq, Bool.not_eq_true'] at hok
      obtain ⟨⟨⟨hkk, hnodup⟩, hokv⟩, hokr⟩ := hok
      subst hkk
      rw [buildStruct]
      have hlook : (extra ++ fieldsPairs M (.cons k v vr)).lookup k = some v := by
        rw [lookup_append_of_not_mem _ _ _ ?_]
        · simp [fieldsPairs, List.lookup]
        · intro p hp he
          have := hextra p hp
          rw [he] at this
          simp [keysOfT, List.contains] at this
      have hrec : buildStruct M tr (extra ++ fieldsPairs M (.cons k v vr)) = some vr := by
        have : extra ++ fieldsPairs M (.cons k v vr)
            = (extra ++ [(k, v)]) ++ fieldsPairs M vr := by
          simp [fieldsPairs]
        rw [this]
        apply buildStruct_pairs_gen M tr vr hokr
        intro p hp
        rcases List.mem_append.1 hp with hp | hp
        · have := hextra p hp
          simp only [keysOfT] at this
          cases hcc : (keysOfT tr).contains p.1
          · rfl
          · exfalso
            rw [show ((k :: keysOfT tr).contains p.1) =
                (p.1 == k || (keysOfT tr).contains p.1) from rfl, hcc] at this
            simp at this
        · simp at hp
          subst hp
          simpa using hnodup
      rw [hlook, hrec]

lemma buildStruct_pairs (M : FloatModel) (tfs : VdfTFields) (vfs : VdfVFields M)
    (hok : okC1F M tfs vfs = true) :
    buildStruct M tfs (fieldsPairs M vfs) = some vfs := by
  have := buildStruct_pairs_gen M tfs vfs hok [] (by simp)
  simpa using this

lemma contains_false_iff {α : Type} [BEq α] [LawfulBEq α] (l : List α) (a : α) :
    l.contains a = false ↔ a ∉ l := by
  constructor
  · intro h hmem
    have hc : l.contains a = true := List.elem_iff.2 hmem
    rw [h] at hc
    exact Bool.false_ne_true hc
  · intro h
    cases hc : l.contains a
    · rfl
    · exact absurd (List.elem_iff.1 hc) h

lemma nextTok_pre_quoted_raw (pre s rest : List Char)
    (hpre : ∀ c ∈ pre, isWsChar c = true) (hs : ∀ c ∈ s, c ≠ '"' ∧ c ≠ '\\') :
    nextTok (pre ++ ('"' :: s ++ ['"']) ++ rest) = .done (.item s) rest := by
  rw [List.append_assoc, nextTok_ws pre hpre]
  rw [show ('"' :: s ++ ['"']) ++ rest = '"' :: (s ++ '"' :: rest) from by simp]
  exact nextTok_quote s rest hs

lemma nextTok_pre_escaped (pre s rest : List Char)
    (hpre : ∀ c ∈ pre, isWsChar c = true) :
    nextTok (pre ++ ('"' :: escapeVdf s ++ ['"']) ++ rest) = .done (.item s) rest := by
  rw [List.append_assoc, nextTok_ws pre hpre, escapeVdf_eq_flatMap]
  rw [show ('"' :: s.flatMap escChar ++ ['"']) ++ rest
      = '"' :: (s.flatMap escChar ++ '"' :: rest) from by simp]
  exact nextTok_escaped s rest

lemma nextTok_pre_open (pre rest : List Char) (hpre : ∀ c ∈ pre, isWsChar c = true) :
    nextTok (pre ++ '{' :: rest) = .done .groupStart rest := by
  rw [nextTok_ws pre hpre]; rfl

lemma nextTok_pre_close (pre rest : List Char) (hpre : ∀ c ∈ pre, isWsChar c = true) :
    nextTok (pre ++ '}' :: rest) = .done .groupEnd rest := by
  rw [nextTok_ws pre hpre]; rfl

lemma tabs_ws (n : Nat) : ∀ c ∈ tabs n, isWsChar c = true := by
  intro c hc; simp [tabs] at hc; simp [hc, isWsChar]

lemma ws_append {a b : List Char} (ha : ∀ c ∈ a, isWsChar c = true)
    (hb : ∀ c ∈ b, isWsChar c = true) : ∀ c ∈ a ++ b, isWsChar c = true := by
  intro c hc
  rcases List.mem_append.1 hc with h | h
  · exact ha c h
  · exact hb c h

lemma newline_ws : ∀ c ∈ ['\n'], isWsChar c = true := by
  intro c hc; simp at hc; simp [hc, isWsChar]

lemma tab_ws : ∀ c ∈ ['\t'], isWsChar c = true := by
  intro c hc; simp at hc; simp [hc, isWsChar]

/-! ## Unfolding equations for the decode driver -/

lemma decodeType_bool (M : FloatModel) (f : Nat) (d : Deserializer) :
    decodeType M (f + 1) .tBool d =
      (match next_token d with
        | (.error e, d') => (.error e, d')
        | (.ok (.item s), d') =>
          if s = "0".data then (.ok (.vBool false), d')
          else if s = "1".data then (.ok (.vBool true), d')
          else (.error (.Expected "bool (\"0\" or \"1\")".data (tokenDebug (.item s))), d')
        | (.ok got, d') =>
          (.error (.Expected "bool (\"0\" or \"1\")".data (tokenDebug got)), d')) := rfl

lemma decodeType_int (M : FloatModel) (f : Nat) (w : IntWidth) (d : Deserializer) :
    decodeType M (f + 1) (.tInt w) d =
      (match next_token_item d with
        | (.error e, d') => (.error e, d')
        | (.ok s, d') =>
          match parseIntText w s with
          | some n => (.ok (.vInt w n), d')
          | none => (.error (.StringParse "invalid digit or out of range".data), d')) := rfl

lemma decodeType_f32 (M : FloatModel) (f : Nat) (d : Deserializer) :
    decodeType M (f + 1) .tF32 d =
      (match next_token_item d with
        | (.error e, d') => (.error e, d')
        | (.ok s, d') =>
          match M.parseF32 s with
          | some x => (.ok (.vF32 x), d')
          | none => (.error (.StringParse "invalid float literal".data), d')) := rfl

lemma decodeType_f64 (M : FloatModel) (f : Nat) (d : Deserializer) :
    decodeType M (f + 1) .tF64 d =
      (match next_token_item d with
        | (.error e, d') => (.error e, d')
        | (.ok s, d') =>
          match M.parseF64 s with
          | some x => (.ok (.vF64 x), d')
          | none => (.error (.StringParse "invalid float literal".data), d')) := rfl

lemma decodeType_char (M : FloatModel) (f : Nat) (d : Deserializer) :
    decodeType M (f + 1) .tChar d =
      (match next_token_item d with
        | (.error e, d') => (.error e, d')
        | (.ok s, d') =>
          match s with
          | [c] => (.ok (.vChar c), d')
          | _ => (.error (.StringParse "too many characters in string".data), d')) := rfl

lemma decodeType_string (M : FloatModel) (f : Nat) (d : Deserializer) :
    decodeType M (f + 1) .tString d =
      (match next_token_item d with
        | (.error e, d') => (.error e, d')
        | (.ok s, d') => (.ok (.vStr s), d')) := rfl

lemma decodeType_enum (M : FloatModel) (f : Nat) (variants : List (List Char))
    (d : Deserializer) :
    decodeType M (f + 1) (.tEnum variants) d =
      (match next_token_item d with
        | (.error e, d') => (.error e, d')
        | (.ok s, d') =>
          if variants.contains s then (.ok (.vVariant s), d')
          else (.error (.Message ("unknown variant ".data ++ s)), d')) := rfl

lemma decodeType_option (M : FloatModel) (f : Nat) (t' : VdfType) (d : Deserializer) :
    decodeType M (f + 1) (.tOption t') d =
      (match decodeType M f t' d with
        | (.error e, d') => (.error e, d')
        | (.ok v, d') => (.ok (.vSome v), d')) := rfl

lemma decodeType_newtype_top (M : FloatModel) (f : Nat) (name : List Char)
    (t' : VdfType) (i : List Char) (q : List Token) :
    decodeType M (f + 1) (.tNewtype name t') ⟨i, q, true⟩ =
      (match next_token ⟨i, q, true⟩ with
        | (.error e, d') => (.error e, d')
        | (.ok tok, d') =>
          if tok = .item name then
            match decodeType M f t' { d' with top_level := false } with
            | (.error e, d2) => (.error e, d2)
            | (.ok v, d2) => (.ok (.vNewtype v), d2)
          else (.error (.Expected name (tokenDebug tok)), d')) := rfl

lemma decodeType_newtype_nontop (M : FloatModel) (f : Nat) (name : List Char)
    (t' : VdfType) (i : List Char) (q : List Token) :
    decodeType M (f + 1) (.tNewtype name t') ⟨i, q, false⟩ =
      (match decodeType M f t' ⟨i, q, false⟩ with
        | (.error e, d') => (.error e, d')
        | (.ok v, d') => (.ok (.vNewtype v), d')) := rfl

lemma decodeType_struct_top (M : FloatModel) (f : Nat) (name : List Char)
    (fields : VdfTFields) (i : List Char) (q : List Token) :
    decodeType M (f + 1) (.tStruct name fields) ⟨i, q, true⟩ =
      (match (match next_token ⟨i, q, true⟩ with
          | (.error e, d') => (.error e, d')
          | (.ok tok, d') =>
            if tok = .item name then (.ok (), { d' with top_level := false })
            else (.error (.Expected name (tokenDebug tok)), d') :
          Except Error Unit × Deserializer) with
      | (.error e, d') => (.error e, d')
      | (.ok _, d1) =>
        match next_token d1 with
        | (.error e, d2) => (.error e, d2)
        | (.ok .groupStart, d2) =>
          (match entryLoop M true
              (fun k dd =>
                match fields.find? k with
                | some vt => decodeType M f vt dd
                | none => (.error (.UnsupportedType "any".data), dd))
              f [] d2 with
          | (.error e, d3) => (.error e, d3)
          | (.ok seen, d3) =>
            match buildStruct M fields seen with
            | none => (.error (.Message "missing field".data), d3)
            | some vf =>
              match next_token d3 with
              | (.error e, d4) => (.error e, d4)
              | (.ok .groupEnd, d4) => (.ok (.vStruct name vf), d4)
              | (.ok got, d4) => (.error (.Expected "'\x7d'".data (tokenDebug got)), d4))
        | (.ok got, d2) =>
          (.error (.Expected "'\x7b'".data (tokenDebug got)), d2)) := rfl

lemma decodeType_struct_nontop (M : FloatModel) (f : Nat) (name : List Char)
    (fields : VdfTFields) (i : List Char) (q : List Token) :
    decodeType M (f + 1) (.tStruct name fields) ⟨i, q, false⟩ =
      (match next_token ⟨i, q, false⟩ with
        | (.error e, d2) => (.error e, d2)
        | (.ok .groupStart, d2) =>
          (match entryLoop M true
              (fun k dd =>
                match fields.find? k with
                | some vt => decodeType M f vt dd
                | none => (.error (.UnsupportedType "any".data), dd))
              f [] d2 with
          | (.error e, d3) => (.error e, d3)
          | (.ok seen, d3) =>
            match buildStruct M fields seen with
            | none => (.error (.Message "missing field".data), d3)
            | some vf =>
              match next_token d3 with
              | (.error e, d4) => (.error e, d4)
              | (.ok .groupEnd, d4) => (.ok (.vStruct name vf), d4)
              | (.ok got, d4) => (.error (.Expected "'\x7d'".data (tokenDebug got)), d4))
        | (.ok got, d2) =>
          (.error (.Expected "'\x7b'".data (tokenDebug got)), d2)) := rfl

lemma entryLoop_succ (M : FloatModel) (checkDup : Bool)
    (step : List Char → Deserializer → Except Error (VdfValue M) × Deserializer)
    (f : Nat) (seen : List (List Char × VdfValue M)) (d : Deserializer) :
    entryLoop M checkDup step (f + 1) seen d =
      (match peek_token d with
        | (.error e, d') => (.error e, d')
        | (.ok t, d') =>
          if t = .groupEnd then (.ok seen, d')
          else
            match next_token_item d' with
            | (.error e, d2) => (.error e, d2)
            | (.ok k, d2) =>
              if checkDup && (seen.map Prod.fst).contains k then
                (.error (.Message ("duplicate field ".data ++ k)), d2)
              else
                match step k d2 with
                | (.error e, d3) => (.error e, d3)
                | (.ok v, d3) => entryLoop M checkDup step f (seen ++ [(k, v)]) d3) := rfl

/-! ## Decoding the encoder's own output -/

lemma needV_pos (M : FloatModel) (v : VdfValue M) : 1 ≤ needV M v := by
  cases v <;> simp [needV]

lemma sep_ws (M : FloatModel) (v : VdfValue M) :
    ∀ c ∈ (if groupish M v then ([] : List Char) else ['\t']), isWsChar c = true := by
  by_cases hg : groupish M v = true <;> simp [hg, isWsChar]

lemma item_ne_groupEnd (s : List Char) : ¬ (Token.item s = Token.groupEnd) := by simp

mutual
theorem decode_encVal (M : FloatModel) (hM : FloatModelOk M) (v : VdfValue M) :
    ∀ t : VdfType, okC1 M t v = true →
    ∀ f : Nat, needV M v ≤ f →
    ∀ (i : Nat) (tl : Bool), (i = 0 ↔ tl = true) →
    ∀ pre rest : List Char, (∀ c ∈ pre, isWsChar c = true) →
      decodeType M f t ⟨pre ++ encVal M i v ++ rest, [], tl⟩ =
        (.ok v, ⟨rest, [], tlAfter M tl v⟩) := by
  match v with
  | .vBool b =>
    intro t hok f hf i tl hitl pre rest hpre
    obtain ⟨f', rfl⟩ : ∃ f', f = f' + 1 :=
      ⟨f - 1, by have := needV_pos M (.vBool b); omega⟩
    cases t <;> try (exfalso; simp [okC1] at hok; done)
    cases b
    · rw [show encVal M i (.vBool false) = '"' :: ['0'] ++ ['"'] from rfl]
      rw [decodeType_bool,
        next_token_pull _ _ _ tl (nextTok_pre_quoted_raw pre ['0'] rest hpre
          (by intro c hc; simp at hc; subst hc; exact ⟨by decide, by decide⟩))]
      simp [tlAfter]
    · rw [show encVal M i (.vBool true) = '"' :: ['1'] ++ ['"'] from rfl]
      rw [decodeType_bool,
        next_token_pull _ _ _ tl (nextTok_pre_quoted_raw pre ['1'] rest hpre
          (by intro c hc; simp at hc; subst hc; exact ⟨by decide, by decide⟩))]
      simp [tlAfter]
  | .vInt w n =>
    intro t hok f hf i tl hitl pre rest hpre
    obtain ⟨f', rfl⟩ : ∃ f', f = f' + 1 :=
      ⟨f - 1, by have := needV_pos M (.vInt w n); omega⟩
    cases t <;> try (exfalso; simp [okC1] at hok; done)
    case tInt w' =>
    have hok' := hok
    simp only [okC1, Bool.and_eq_true, decide_eq_true_eq] at hok'
    obtain ⟨hww, hrange⟩ := hok'
    subst hww
    rw [show encVal M i (.vInt w' n) = '"' :: intRepr n ++ ['"'] from rfl]
    rw [decodeType_int,
      next_token_item_pull _ _ _ tl (nextTok_pre_quoted_raw pre (intRepr n) rest hpre
        (intRepr_raw n))]
    simp [parseIntText_intRepr hrange, tlAfter]
  | .vF32 x =>
    intro t hok f hf i tl hitl pre rest hpre
    obtain ⟨f', rfl⟩ : ∃ f', f = f' + 1 :=
      ⟨f - 1, by have := needV_pos M (.vF32 x); omega⟩
    cases t <;> try (exfalso; simp [okC1] at hok; done)
    rw [show encVal M i (.vF32 x) = '"' :: M.fmt64 (M.widen32 x) ++ ['"'] from rfl]
    rw [decodeType_f32,
      next_token_item_pull _ _ _ tl (nextTok_pre_quoted_raw pre (M.fmt64 (M.widen32 x))
        rest hpre (fun c hc => hM.fmt_raw (M.widen32 x) c hc))]
    simp [hM.parse32_fmt x, tlAfter]
  | .vF64 x =>
    intro t hok f hf i tl hitl pre rest hpre
    obtain ⟨f', rfl⟩ : ∃ f', f = f' + 1 :=
      ⟨f - 1, by have := needV_pos M (.vF64 x); omega⟩
    cases t <;> try (exfalso; simp [okC1] at hok; done)
    rw [show encVal M i (.vF64 x) = '"' :: M.fmt64 x ++ ['"'] from rfl]
    rw [decodeType_f64,
      next_token_item_pull _ _ _ tl (nextTok_pre_quoted_raw pre (M.fmt64 x)
        rest hpre (fun c hc => hM.fmt_raw x c hc))]
    simp [hM.parse64_fmt x, tlAfter]
  | .vChar c =>
    intro t hok f hf i tl hitl pre rest hpre
    obtain ⟨f', rfl⟩ : ∃ f', f = f' + 1 :=
      ⟨f - 1, by have := needV_pos M (.vChar c); omega⟩
    cases t <;> try (exfalso; simp [okC1] at hok; done)
    rw [show encVal M i (.vChar c) = '"' :: escapeVdf [c] ++ ['"'] from rfl]
    rw [decodeType_char,
      next_token_item_pull _ _ _ tl (nextTok_pre_escaped pre [c] rest hpre)]
    simp [tlAfter]
  | .vStr s =>
    intro t hok f hf i tl hitl pre rest hpre
    obtain ⟨f', rfl⟩ : ∃ f', f = f' + 1 :=
      ⟨f - 1, by have := needV_pos M (.vStr s); omega⟩
    cases t <;> try (exfalso; simp [okC1] at hok; done)
    rw [show encVal M i (.vStr s) = '"' :: escapeVdf s ++ ['"'] from rfl]
    rw [decodeType_string,
      next_token_item_pull _ _ _ tl (nextTok_pre_escaped pre s rest hpre)]
    simp [tlAfter]
  | .vVariant s =>
    intro t hok f hf i tl hitl pre rest hpre
    obtain ⟨f', rfl⟩ : ∃ f', f = f' + 1 :=
      ⟨f - 1, by have := needV_pos M (.vVariant s); omega⟩
    cases t <;> try (exfalso; simp [okC1] at hok; done)
    case tEnum variants =>
    have hmem : variants.contains s = true := by
      have := hok; simpa [okC1] using this
    rw [show encVal M i (.vVariant s) = '"' :: escapeVdf s ++ ['"'] from rfl]
    rw [decodeType_enum,
      next_token_item_pull _ _ _ tl (nextTok_pre_escaped pre s rest hpre)]
    simp [tlAfter, List.elem_iff.1 hmem]
  | .vSome v' =>
    intro t hok f hf i tl hitl pre rest hpre
    obtain ⟨f', rfl⟩ : ∃ f', f = f' + 1 :=
      ⟨f - 1, by have := needV_pos M (.vSome v'); omega⟩
    cases t <;> try (exfalso; simp [okC1] at hok; done)
    case tOption t' =>
    have hok' : okC1 M t' v' = true := by simpa [okC1] using hok
    have hf' : needV M v' ≤ f' := by simp [needV] at hf; omega
    rw [show encVal M i (.vSome v') = encVal M i v' from rfl]
    rw [decodeType_option, decode_encVal M hM v' t' hok' f' hf' i tl hitl pre rest hpre]
    simp [tlAfter]
  | .vNewtype v' =>
    intro t hok f hf i tl hitl pre rest hpre
    exact absurd hok (by cases t <;> simp [okC1])
  | .vMap es =>
    intro t hok f hf i tl hitl pre rest hpre
    exact absurd hok (by cases t <;> simp [okC1])
  | .vStruct name vfs =>
    intro t hok f hf i tl hitl pre rest hpre
    obtain ⟨f', rfl⟩ : ∃ f', f = f' + 1 :=
      ⟨f - 1, by have := needV_pos M (.vStruct name vfs); omega⟩
    cases t <;> try (exfalso; simp [okC1] at hok; done)
    case tStruct name' tfs =>
    have hok' := hok
    simp only [okC1, Bool.and_eq_true, decide_eq_true_eq] at hok'
    obtain ⟨⟨hname, hraw⟩, hokf⟩ := hok'
    subst hname
    have hfuel : needF M vfs ≤ f' := by simp [needV] at hf; omega
    cases tl
    · have hi0 : ¬ i = 0 := fun h => by simp [h] at hitl
      rw [show encVal M i (.vStruct name' vfs)
          = '\n' :: tabs i ++ '{' :: '\n' ::
              (encFields M (i + 1) vfs ++ tabs i ++ ['}']) from by
        simp [encVal, hi0]]
      rw [decodeType_struct_nontop]
      rw [show pre ++ ('\n' :: tabs i ++ '{' :: '\n' ::
            (encFields M (i + 1) vfs ++ tabs i ++ ['}'])) ++ rest
          = (pre ++ '\n' :: tabs i) ++ '{' ::
              (['\n'] ++ encFields M (i + 1) vfs ++ (tabs i ++ '}' :: rest)) from by simp]
      rw [next_token_pull _ _ _ false (nextTok_pre_open (pre ++ '\n' :: tabs i) _
        (ws_append hpre (ws_append newline_ws (tabs_ws i))))]
      simp only []
      rw [decode_encFields M hM vfs _ tfs tfs hokf f' ?s1 ?s2 hfuel f' hfuel
        (i + 1) ?s3 [] ?s4 ['\n'] (tabs i) rest newline_ws (tabs_ws i)]
      case s1 => intro kk dd; rfl
      case s2 => intro k1 h1; rfl
      case s3 => omega
      case s4 => intro k1 h1; rfl
      simp only [List.nil_append]
      rw [buildStruct_pairs M tfs vfs hokf]
      simp only []
      rw [next_token_pop]
      simp [tlAfter]
    · have hi0 : i = 0 := hitl.2 rfl
      subst hi0
      rw [show encVal M 0 (.vStruct name' vfs)
          = ('"' :: name' ++ ['"']) ++ ('\n' :: tabs 0 ++ '{' :: '\n' ::
              (encFields M 1 vfs ++ tabs 0 ++ ['}'])) from by simp [encVal]]
      rw [decodeType_struct_top]
      rw [show pre ++ (('"' :: name' ++ ['"']) ++ ('\n' :: tabs 0 ++ '{' :: '\n' ::
            (encFields M 1 vfs ++ tabs 0 ++ ['}']))) ++ rest
          = pre ++ ('"' :: name' ++ ['"']) ++ ('\n' :: tabs 0 ++ '{' :: '\n' ::
              (encFields M 1 vfs ++ tabs 0 ++ ['}']) ++ rest) from by simp]
      rw [next_token_pull _ _ _ true (nextTok_pre_quoted_raw pre name'
        ('\n' :: tabs 0 ++ '{' :: '\n' :: (encFields M 1 vfs ++ tabs 0 ++ ['}']) ++ rest)
        hpre (rawItemOk_spec hraw))]
      simp only [if_true]
      rw [show ('\n' :: tabs 0 ++ '{' :: '\n' ::
            (encFields M 1 vfs ++ tabs 0 ++ ['}']) ++ rest)
          = ('\n' :: tabs 0) ++ '{' ::
              (['\n'] ++ encFields M 1 vfs ++ (tabs 0 ++ '}' :: rest)) from by simp]
      rw [next_token_pull _ _ _ false (nextTok_pre_open ('\n' :: tabs 0) _
        (ws_append newline_ws (tabs_ws 0)))]
      simp only []
      rw [decode_encFields M hM vfs _ tfs tfs hokf f' ?t1 ?t2 hfuel f' hfuel
        1 ?t3 [] ?t4 ['\n'] (tabs 0) rest newline_ws (tabs_ws 0)]
      case t1 => intro kk dd; rfl
      case t2 => intro k1 h1; rfl
      case t3 => omega
      case t4 => intro k1 h1; rfl
      simp only [List.nil_append]
      rw [buildStruct_pairs M tfs vfs hokf]
      simp only []
      rw [next_token_pop]
      simp [tlAfter]

theorem decode_encFields (M : FloatModel) (hM : FloatModelOk M) (vfs : VdfVFields M) :
    ∀ (step : List Char → Deserializer → Except Error (VdfValue M) × Deserializer),
    ∀ allT tfs : VdfTFields, okC1F M tfs vfs = true →
    ∀ fstep : Nat,
    (∀ kk dd, step kk dd =
      match VdfTFields.find? allT kk with
      | some vt => decodeType M fstep vt dd
      | none => (.error (.UnsupportedType "any".data), dd)) →
    (∀ k', (keysOfT tfs).contains k' = true →
      VdfTFields.find? allT k' = VdfTFields.find? tfs k') →
    needF M vfs ≤ fstep →
    ∀ floop : Nat, needF M vfs ≤ floop →
    ∀ i : Nat, 1 ≤ i →
    ∀ seen : List (List Char × VdfValue M),
      (∀ k', (keysOfT tfs).contains k' = true →
        (seen.map Prod.fst).contains k' = false) →
    ∀ pre post rest : List Char, (∀ c ∈ pre, isWsChar c = true) →
      (∀ c ∈ post, isWsChar c = true) →
      entryLoop M true step
        floop seen ⟨pre ++ encFields M i vfs ++ (post ++ '}' :: rest), [], false⟩ =
      (.ok (seen ++ fieldsPairs M vfs), ⟨rest, [.groupEnd], false⟩) := by
  match vfs with
  | .nil =>
    intro step allT tfs hok fstep hstepdef hfind hstep floop hloop i hi seen hseen
      pre post rest hpre hpost
    obtain ⟨fl, rfl⟩ : ∃ fl, floop = fl + 1 :=
      ⟨floop - 1, by simp [needF] at hloop; omega⟩
    rw [show encFields M i .nil = ([] : List Char) from rfl]
    rw [entryLoop_succ]
    rw [show pre ++ [] ++ (post ++ '}' :: rest)
        = (pre ++ post) ++ '}' :: rest from by simp]
    rw [peek_token_pull _ _ _ false (nextTok_pre_close (pre ++ post) rest
      (ws_append hpre hpost))]
    simp [fieldsPairs]
  | .cons k v r =>
    intro step allT tfs hok fstep hstepdef hfind hstep floop hloop i hi seen hseen
      pre post rest hpre hpost
    obtain ⟨fl, rfl⟩ : ∃ fl, floop = fl + 1 :=
      ⟨floop - 1, by simp [needF] at hloop; omega⟩
    cases tfs with
    | nil => exact absurd hok (by simp [okC1F])
    | cons kt tt tr =>
    simp only [okC1F, Bool.and_eq_true, decide_eq_true_eq, Bool.not_eq_true'] at hok
    obtain ⟨⟨⟨hkk, hnodup⟩, hokv⟩, hokr⟩ := hok
    subst kt
    have hneedv : needV M v ≤ fstep := by simp [needF] at hstep; omega
    have hneedr : needF M r ≤ fstep := by simp [needF] at hstep; omega
    have hloopr : needF M r ≤ fl := by simp [needF] at hloop; omega
    rw [entryLoop_succ]
    rw [show encFields M i (.cons k v r)
        = tabs i ++ '"' :: escapeVdf k ++ '"' ::
            ((if groupish M v then [] else ['\t']) ++ encVal M i v ++
              '\n' :: encFields M i r) from by simp [encFields]]
    rw [show pre ++ (tabs i ++ '"' :: escapeVdf k ++ '"' ::
          ((if groupish M v then [] else ['\t']) ++ encVal M i v ++
            '\n' :: encFields M i r)) ++ (post ++ '}' :: rest)
        = (pre ++ tabs i) ++ ('"' :: escapeVdf k ++ ['"']) ++
            ((if groupish M v then [] else ['\t']) ++ encVal M i v ++
              ('\n' :: encFields M i r ++ (post ++ '}' :: rest))) from by simp]
    rw [peek_token_pull _ _ _ false (nextTok_pre_escaped (pre ++ tabs i) k _
      (ws_append hpre (tabs_ws i)))]
    simp only []
    rw [if_neg (item_ne_groupEnd k)]
    rw [next_token_item_pop]
    simp only []
    have hdup : (seen.map Prod.fst).contains k = false :=
      hseen k (List.elem_iff.2 (List.mem_cons_self _ _))
    have hcond : ¬ ((true && (seen.map Prod.fst).contains k) = true) := by
      rw [Bool.true_and, hdup]
      exact Bool.false_ne_true
    rw [if_neg hcond]
    have hfindk : VdfTFields.find? allT k = some tt := by
      rw [hfind k (List.elem_iff.2 (List.mem_cons_self _ _))]
      simp [VdfTFields.find?]
    rw [hstepdef k]
    rw [hfindk]
    simp only []
    rw [decode_encVal M hM v tt hokv fstep hneedv i false
      (iff_of_false (by omega) (by simp))
      (if groupish M v then [] else ['\t'])
      ('\n' :: encFields M i r ++ (post ++ '}' :: rest)) (sep_ws M v)]
    simp only []
    rw [tlAfter_false]
    rw [show '\n' :: encFields M i r ++ (post ++ '}' :: rest)
        = ['\n'] ++ encFields M i r ++ (post ++ '}' :: rest) from rfl]
    have hseen' : ∀ k', (keysOfT tr).contains k' = true →
        ((seen ++ [(k, v)]).map Prod.fst).contains k' = false := by
      intro k' hk'
      have hkne : k' ≠ k := by
        intro he
        subst he
        exact absurd (List.elem_iff.1 hk') ((contains_false_iff _ _).1 hnodup)
      have hs : (seen.map Prod.fst).contains k' = false :=
        hseen k' (List.elem_iff.2 (List.mem_cons_of_mem _ (List.elem_iff.1 hk')))
      rw [contains_false_iff] at hs ⊢
      simp only [List.map_append, List.map_cons, List.map_nil]
      intro hmem
      rcases List.mem_append.1 hmem with h | h
      · exact hs h
      · simp at h; exact hkne h
    have hfind' : ∀ k', (keysOfT tr).contains k' = true →
        VdfTFields.find? allT k' = VdfTFields.find? tr k' := by
      intro k' hk'
      have hkne : ¬ k = k' := by
        intro he
        subst he
        exact absurd (List.elem_iff.1 hk') ((contains_false_iff _ _).1 hnodup)
      rw [hfind k' (List.elem_iff.2 (List.mem_cons_of_mem _ (List.elem_iff.1 hk')))]
      simp [VdfTFields.find?, hkne]
    rw [decode_encFields M hM r step allT tr hokr fstep hstepdef hfind' hneedr
      fl hloopr i hi (seen ++ [(k, v)]) hseen' ['\n'] post rest newline_ws hpost]
    simp [fieldsPairs]
end

/-! ## The decode budget of from_str dominates the need of any encoded value -/

lemma sizeT_pos (t : VdfType) : 1 ≤ sizeT t := by
  cases t <;> simp [sizeT]

lemma mul_sum_helper (a b c d : Nat) :
    (a + 1) * (b + 1) + (c + 1) * (d + 1) + 1 ≤ (a + c + 2) * (b + d + 2) := by
  nlinarith

mutual
/-- The recursion budget needed to decode a value's encoding is dominated by
the product bound that `from_str` computes from the shape size and the
input length. -/
theorem needV_le (M : FloatModel) (v : VdfValue M) :
    ∀ t : VdfType, okC1 M t v = true →
    ∀ i : Nat, needV M v ≤ (sizeT t + 1) * ((encVal M i v).length + 1) := by
  match v with
  | .vSome v' =>
    intro t hok i
    cases t <;> try (exfalso; simp [okC1] at hok; done)
    case tOption t' =>
    have hok' : okC1 M t' v' = true := by simpa [okC1] using hok
    have ih := needV_le M v' t' hok' i
    have hexp : (1 + sizeT t' + 1) * ((encVal M i v').length + 1)
        = (sizeT t' + 1) * ((encVal M i v').length + 1)
          + ((encVal M i v').length + 1) := by ring
    rw [show needV M (.vSome v') = 1 + needV M v' from rfl,
      show encVal M i (.vSome v') = encVal M i v' from rfl,
      show sizeT (.tOption t') = 1 + sizeT t' from rfl]
    omega
  | .vStruct name vfs =>
    intro t hok i
    cases t <;> try (exfalso; simp [okC1] at hok; done)
    case tStruct name' tfs =>
    have hokf : okC1F M tfs vfs = true := by
      have h := hok
      simp only [okC1, Bool.and_eq_true] at h
      exact h.2
    have ih := needF_le M vfs tfs hokf (i + 1)
    have hlen : (encFields M (i + 1) vfs).length + 4 ≤ (encVal M i (.vStruct name vfs)).length := by
      simp [encVal, tabs]
      by_cases h0 : i = 0 <;> simp [h0]
      all_goals omega
    have hmono : (sizeTF tfs + 1) * ((encFields M (i + 1) vfs).length + 1)
        ≤ (sizeTF tfs + 1) * ((encVal M i (.vStruct name vfs)).length + 1) :=
      Nat.mul_le_mul_left _ (by omega)
    have hexp : (1 + sizeTF tfs + 1) * ((encVal M i (.vStruct name vfs)).length + 1)
        = (sizeTF tfs + 1) * ((encVal M i (.vStruct name vfs)).length + 1)
          + ((encVal M i (.vStruct name vfs)).length + 1) := by ring
    rw [show needV M (.vStruct name vfs) = 1 + needF M vfs from rfl,
      show sizeT (.tStruct name' tfs) = 1 + sizeTF tfs from rfl]
    omega
  | .vBool b =>
    intro t hok i
    have := Nat.mul_pos (show 0 < sizeT t + 1 by omega)
      (show 0 < (encVal M i (.vBool b)).length + 1 by omega)
    rw [show needV M (.vBool b) = 1 from rfl]
    omega
  | .vInt w n =>
    intro t hok i
    have := Nat.mul_pos (show 0 < sizeT t + 1 by omega)
      (show 0 < (encVal M i (.vInt w n)).length + 1 by omega)
    rw [show needV M (.vInt w n) = 1 from rfl]
    omega
  | .vF32 x =>
    intro t hok i
    have := Nat.mul_pos (show 0 < sizeT t + 1 by omega)
      (show 0 < (encVal M i (.vF32 x)).length + 1 by omega)
    rw [show needV M (.vF32 x) = 1 from rfl]
    omega
  | .vF64 x =>
    intro t hok i
    have := Nat.mul_pos (show 0 < sizeT t + 1 by omega)
      (show 0 < (encVal M i (.vF64 x)).length + 1 by omega)
    rw [show needV M (.vF64 x) = 1 from rfl]
    omega
  | .vChar c =>
    intro t hok i
    have := Nat.mul_pos (show 0 < sizeT t + 1 by omega)
      (show 0 < (encVal M i (.vChar c)).length + 1 by omega)
    rw [show needV M (.vChar c) = 1 from rfl]
    omega
  | .vStr s =>
    intro t hok i
    have := Nat.mul_pos (show 0 < sizeT t + 1 by omega)
      (show 0 < (encVal M i (.vStr s)).length + 1 by omega)
    rw [show needV M (.vStr s) = 1 from rfl]
    omega
  | .vVariant s =>
    intro t hok i
    have := Nat.mul_pos (show 0 < sizeT t + 1 by omega)
      (show 0 < (encVal M i (.vVariant s)).length + 1 by omega)
    rw [show needV M (.vVariant s) = 1 from rfl]
    omega
  | .vNewtype v' =>
    intro t hok i
    exact absurd hok (by cases t <;> simp [okC1])
  | .vMap es =>
    intro t hok i
    exact absurd hok (by cases t <;> simp [okC1])
/-- Companion bound for field runs. -/
theorem needF_le (M : FloatModel) (vfs : VdfVFields M) :
    ∀ tfs : VdfTFields, okC1F M tfs vfs = true →
    ∀ i : Nat, needF M vfs ≤ (sizeTF tfs + 1) * ((encFields M i vfs).length + 1) := by
  match vfs with
  | .nil =>
    intro tfs hok i
    have := Nat.mul_pos (show 0 < sizeTF tfs + 1 by omega)
      (show 0 < (encFields M i .nil).length + 1 by omega)
    rw [show needF M (.nil : VdfVFields M) = 1 from rfl]
    omega
  | .cons k v r =>
    intro tfs hok i
    cases tfs with
    | nil => exact absurd hok (by simp [okC1F])
    | cons kt tt tr =>
    simp only [okC1F, Bool.and_eq_true, decide_eq_true_eq, Bool.not_eq_true'] at hok
    obtain ⟨⟨⟨hkk, _⟩, hokv⟩, hokr⟩ := hok
    have ih1 := needV_le M v tt hokv i
    have ih2 := needF_le M r tr hokr i
    have hkey : (encVal M i v).length + (encFields M i r).length + 3
        ≤ (encFields M i (.cons k v r)).length := by
      simp [encFields, tabs]
      by_cases hg : groupish M v = true <;> simp [hg] <;> omega
    have hhelper := mul_sum_helper (sizeT tt) ((encVal M i v).length)
      (sizeTF tr) ((encFields M i r).length)
    have hmono : (sizeT tt + sizeTF tr + 2) *
          ((encVal M i v).length + (encFields M i r).length + 2)
        ≤ (sizeT tt + sizeTF tr + 2) * ((encFields M i (.cons k v r)).length + 1) :=
      Nat.mul_le_mul_left _ (by omega)
    rw [show needF M (.cons k v r) = 1 + needV M v + needF M r from rfl,
      show sizeTF (.cons kt tt tr) = 1 + sizeT tt + sizeTF tr from rfl]
    have heq : (1 + sizeT tt + sizeTF tr + 1) *
          ((encFields M i (.cons k v r)).length + 1)
        = (sizeT tt + sizeTF tr + 2) *
          ((encFields M i (.cons k v r)).length + 1) := by ring
    omega
end

/-! ## Concrete instantiation of the float model -/

/-- Unbounded decimal integer parse: an integer-valued stand-in for the
standard float parsing routine, used to instantiate the abstract float
codec in concrete witnesses. -/
def parseAnyInt (s : List Char) : Option Int :=
  match s with
  | [] => none
  | c :: r =>
    if c = '-' then (parseDigits r).map fun v => -(v : Int)
    else if c = '+' then (parseDigits r).map fun v => (v : Int)
    else (parseDigits (c :: r)).map fun v => (v : Int)

lemma parseAnyInt_intRepr (n : Int) : parseAnyInt (intRepr n) = some n := by
  by_cases hn : n < 0
  · rw [intRepr, if_pos hn, parseAnyInt, if_pos rfl, parseDigits_natDigits]
    simp [abs_of_neg hn]
  · rw [intRepr, if_neg hn]
    have hne := natDigits_ne_nil n.natAbs
    have hdigs := natDigits_digits n.natAbs
    rcases hhead : natDigits n.natAbs with _ | ⟨c, r⟩
    · exact absurd hhead hne
    · have hc : isDigitChar c = true := hdigs c (by rw [hhead]; exact List.mem_cons_self c r)
      obtain ⟨hplus, hminus, _, _⟩ := isDigitChar_not_sign hc
      rw [parseAnyInt, if_neg hminus, if_neg hplus, ← hhead, parseDigits_natDigits]
      simp [abs_of_nonneg (by omega : (0 : Int) ≤ n)]

/-- The integer-valued instantiation of the abstract float codec. -/
def intFloatModel : FloatModel where
  F32 := Int
  F64 := Int
  widen32 := id
  fmt64 := intRepr
  parseF32 := parseAnyInt
  parseF64 := parseAnyInt

lemma intFloatModelOk : FloatModelOk intFloatModel where
  parse64_fmt := parseAnyInt_intRepr
  parse32_fmt := fun x => parseAnyInt_intRepr x
  fmt_raw := fun x c hc => intRepr_raw x c hc

/-! ## Top-level round trip -/

lemma trimEnd_eq_nil_iff (l : List Char) :
    trimEnd l = [] ↔ ∀ c ∈ l, isWsChar c = true := by
  rw [trimEnd]
  constructor
  · intro h c hc
    have h2 : l.reverse.dropWhile isWsChar = [] := by
      have := congrArg List.reverse h
      simpa using this
    rw [List.dropWhile_eq_nil_iff] at h2
    exact h2 c (List.mem_reverse.2 hc)
  · intro h
    have h2 : l.reverse.dropWhile isWsChar = [] :=
      List.dropWhile_eq_nil_iff.2 fun c hc => h c (List.mem_reverse.1 hc)
    rw [h2]
    rfl

/-- Round trip on the C1 universe, as a reusable lemma: decoding the
serialized text of any well-shaped value recovers the value. -/
theorem roundTrip_ok (M : FloatModel) (hM : FloatModelOk M) (t : VdfType)
    (v : VdfValue M) (hok : okC1 M t v = true) :
    from_str M t (to_string M v) = .ok v := by
  rw [to_string_eq_encVal, from_str]
  have hneed := needV_le M v t hok 0
  have hdec := decode_encVal M hM v t hok
    ((sizeT t + 1) * ((encVal M 0 v).length + 1)) hneed 0 true (by simp) [] []
    (by intro c hc; simp at hc)
  simp only [List.nil_append, List.append_nil] at hdec
  rw [show Deserializer.fromStr (encVal M 0 v) = ⟨encVal M 0 v, [], true⟩ from rfl]
  rw [hdec]
  simp [trimEnd]

/-- C1.  Round trip: for every value of a supported shape (nested records of
booleans, signed/unsigned integers of all widths, floats — via any float
codec satisfying the standard contract —, strings with embedded
quotes/tabs/newlines/backslashes, characters, unit-like enum variants, and
present optionals), decoding the text produced by encoding the value
(`from_str` applied to the result of `to_string`) succeeds and returns a
value equal to the original. -/
theorem c1_round_trip (M : FloatModel) (hM : FloatModelOk M) (t : VdfType)
    (v : VdfValue M) (hok : okC1 M t v = true) :
    from_str M t (to_string M v) = .ok v :=
  roundTrip_ok M hM t v hok

/-- Witness for C1 at a concrete input. -/
theorem c1_round_trip_witness :
    okC1 intFloatModel (.tOption .tBool) (.vSome (.vBool true)) = true ∧
      from_str intFloatModel (.tOption .tBool)
        (to_string intFloatModel (.vSome (.vBool true))) = .ok (.vSome (.vBool true)) :=
  ⟨by decide, c1_round_trip intFloatModel intFloatModelOk (.tOption .tBool)
    (.vSome (.vBool true)) (by decide)⟩

/-! ## The concrete Test scenario of the unit tests -/

/-- The `Test` shape of the unit tests in src/ser.rs and src/de.rs. -/
def testType : VdfType :=
  .tStruct "Test".data (.cons "int".data (.tInt .u32)
    (.cons "inner".data (.tStruct "Inner".data
      (.cons "foo".data .tString (.cons "bar".data .tBool .nil))) .nil))

/-- The `Test` value `(int: 1u32, inner: (foo: "baz", bar: false))`. -/
def testValue (M : FloatModel) : VdfValue M :=
  .vStruct "Test".data (.cons "int".data (.vInt .u32 1)
    (.cons "inner".data (.vStruct "Inner".data
      (.cons "foo".data (.vStr "baz".data) (.cons "bar".data (.vBool false) .nil))) .nil))

/-- The exact expected text of the unit tests. -/
def testText : List Char :=
  "\"Test\"\n\x7b\n\t\"int\"\t\"1\"\n\t\"inner\"\n\t\x7b\n\t\t\"foo\"\t\"baz\"\n\t\t\"bar\"\t\"0\"\n\t\x7d\n\x7d".data

/-- C2.  Concrete scenario: encoding the record
`(int: 1u32, inner: (foo: "baz", bar: false))` whose declared type name is
`Test` yields exactly the text of the unit test (tabs and newlines as
shown, no trailing newline), and decoding that exact text back as the same
record type returns the original value. -/
theorem c2_concrete_scenario :
    to_string intFloatModel (testValue intFloatModel) = testText ∧
      from_str intFloatModel testType testText = .ok (testValue intFloatModel) := by
  constructor
  · rfl
  · rfl

/-! ## String escaping claim -/

/-- C3.  String escaping: string encoding wraps in double quotes the result
of replacing, in this order, backslash, newline, tab and double quote by
their escapes; that chain acts as the character-by-character substitution
`escChar` (so no double escaping occurs); and any string containing a
backslash, a double quote, a tab and a newline decodes back unchanged from
its own encoding. -/
theorem c3_escaping :
    (∀ (st : Serializer) (s : List Char),
        st.serialize_str s = st.push ('"' ::
          replaceAll (replaceAll (replaceAll (replaceAll s '\\' ['\\', '\\'])
            '\n' ['\\', 'n']) '\t' ['\\', 't']) '"' ['\\', '"'] ++ ['"'])) ∧
    (∀ s : List Char, escapeVdf s = s.flatMap escChar) ∧
    (∀ (M : FloatModel) (s : List Char),
        '\\' ∈ s ∧ '"' ∈ s ∧ '\t' ∈ s ∧ '\n' ∈ s →
        from_str M .tString (to_string M (.vStr s)) = .ok (.vStr s)) := by
  refine ⟨fun st s => rfl, escapeVdf_eq_flatMap, fun M s _ => ?_⟩
  rw [to_string_eq_encVal, from_str]
  rw [show encVal M 0 (.vStr s) = '"' :: escapeVdf s ++ ['"'] from rfl]
  obtain ⟨f', hf⟩ : ∃ f', (sizeT VdfType.tString + 1) *
      (('"' :: escapeVdf s ++ ['"']).length + 1) = f' + 1 := ⟨_, rfl⟩
  rw [hf]
  rw [show Deserializer.fromStr ('"' :: escapeVdf s ++ ['"'])
      = ⟨[] ++ ('"' :: escapeVdf s ++ ['"']) ++ [], [], true⟩ from by simp [Deserializer.fromStr]]
  rw [decodeType_string,
    next_token_item_pull _ _ _ true (nextTok_pre_escaped [] s [] (by intro c hc; simp at hc))]
  simp [trimEnd]

/-- Witness for C3 at a concrete input containing all four specials. -/
theorem c3_escaping_witness :
    ('\\' ∈ "a\\b\"c\td\ne".data ∧ '"' ∈ "a\\b\"c\td\ne".data ∧
      '\t' ∈ "a\\b\"c\td\ne".data ∧ '\n' ∈ "a\\b\"c\td\ne".data) ∧
    from_str intFloatModel .tString
      (to_string intFloatModel (.vStr "a\\b\"c\td\ne".data)) = .ok (.vStr "a\\b\"c\td\ne".data) :=
  ⟨by decide, c3_escaping.2.2 intFloatModel "a\\b\"c\td\ne".data (by decide)⟩

/-! ## Boolean strictness claim -/

/-- C4.  Boolean literal strictness: decoding a boolean consumes exactly one
token (the post-state is the one token consumption leaves); the token
`Item "0"` gives `false`, `Item "1"` gives `true`, and every other token —
any other item text, or a group delimiter — fails with `Expected`; encoding
`true` emits exactly `"1"` in double quotes and `false` exactly `"0"`. -/
theorem c4_bool_strictness :
    (∀ st : Serializer, st.serialize_bool true = st.push "\"1\"".data ∧
      st.serialize_bool false = st.push "\"0\"".data) ∧
    (∀ (M : FloatModel) (f : Nat) (d d' : Deserializer) (tok : Token),
      next_token d = (.ok tok, d') →
      (tok = .item "0".data → decodeType M (f + 1) .tBool d = (.ok (.vBool false), d')) ∧
      (tok = .item "1".data → decodeType M (f + 1) .tBool d = (.ok (.vBool true), d')) ∧
      ((∀ s, tok = .item s → s ≠ "0".data ∧ s ≠ "1".data) →
        decodeType M (f + 1) .tBool d =
          (.error (.Expected "bool (\"0\" or \"1\")".data (tokenDebug tok)), d'))) := by
  refine ⟨fun st => ⟨rfl, rfl⟩, fun M f d d' tok h => ⟨?_, ?_, ?_⟩⟩
  · rintro rfl
    rw [decodeType_bool, h]
    simp
  · rintro rfl
    rw [decodeType_bool, h]
    simp
  · intro hs
    rw [decodeType_bool, h]
    cases tok with
    | item s =>
      obtain ⟨h0, h1⟩ := hs s rfl
      simp [h0, h1]
    | groupStart => rfl
    | groupEnd => rfl

/-- Witness for C4: decoding the token `Item "0"` from a concrete state. -/
theorem c4_bool_strictness_witness :
    next_token ⟨[], [.item "0".data], false⟩ = (.ok (.item "0".data), ⟨[], [], false⟩) ∧
    decodeType intFloatModel 1 .tBool ⟨[], [.item "0".data], false⟩
      = (.ok (.vBool false), ⟨[], [], false⟩) :=
  ⟨rfl, (c4_bool_strictness.2 intFloatModel 0 ⟨[], [.item "0".data], false⟩
    ⟨[], [], false⟩ (.item "0".data) rfl).1 rfl⟩

/-! ## Top-level name enforcement claim -/

/-- C5.  Top-level name enforcement: when a named record type is decoded as
the first (top-level) aggregate of a run, if the leading token is not an
`Item` equal to the declared name, decoding fails with `Expected` — for
every remainder of the document, well-formed or not. -/
theorem c5_top_level_name (M : FloatModel) (f : Nat) (name : List Char)
    (fields : VdfTFields) (d d' : Deserializer) (tok : Token)
    (h1 : d.top_level = true) (h2 : next_token d = (.ok tok, d'))
    (h3 : tok ≠ .item name) :
    decodeType M (f + 1) (.tStruct name fields) d =
      (.error (.Expected name (tokenDebug tok)), d') := by
  obtain ⟨di, dq, dtl⟩ := d
  have h1' : dtl = true := h1
  subst h1'
  rw [decodeType_struct_top, h2]
  simp only []
  rw [if_neg h3]

/-- Witness for C5: the test document with the wrong leading name. -/
theorem c5_top_level_name_witness :
    (Deserializer.fromStr "\"Nope\"\n\x7b\n\x7d".data).top_level = true ∧
    next_token (Deserializer.fromStr "\"Nope\"\n\x7b\n\x7d".data)
      = (.ok (.item "Nope".data), ⟨"\n\x7b\n\x7d".data, [], true⟩) ∧
    decodeType intFloatModel 5 testType (Deserializer.fromStr "\"Nope\"\n\x7b\n\x7d".data)
      = (.error (.Expected "Test".data (tokenDebug (.item "Nope".data))),
          ⟨"\n\x7b\n\x7d".data, [], true⟩) := by
  exact ⟨rfl, rfl, c5_top_level_name intFloatModel 4 "Test".data
    (.cons "int".data (.tInt .u32)
      (.cons "inner".data (.tStruct "Inner".data
        (.cons "foo".data .tString (.cons "bar".data .tBool .nil))) .nil))
    (Deserializer.fromStr "\"Nope\"\n\x7b\n\x7d".data)
    ⟨"\n\x7b\n\x7d".data, [], true⟩ (.item "Nope".data) rfl rfl (by simp)⟩

/-! ## Trailing-content claim -/

/-- C6.  Trailing-content policy: when the top-level decode completes, the
run succeeds exactly when the remaining unparsed text is only whitespace;
any non-whitespace remainder turns the run into a `LateEOF` error. -/
theorem c6_trailing_content (M : FloatModel) (t : VdfType) (s : List Char)
    (v : VdfValue M) (d' : Deserializer)
    (h : decodeType M ((sizeT t + 1) * (s.length + 1)) t (Deserializer.fromStr s)
      = (.ok v, d')) :
    ((∀ c ∈ d'.input, isWsChar c = true) → from_str M t s = .ok v) ∧
    ((¬ ∀ c ∈ d'.input, isWsChar c = true) → from_str M t s = .error .LateEOF) := by
  constructor
  · intro hws
    simp only [from_str, h]
    rw [if_pos ((trimEnd_eq_nil_iff d'.input).2 hws)]
  · intro hws
    simp only [from_str, h]
    rw [if_neg fun hc => hws ((trimEnd_eq_nil_iff d'.input).1 hc)]

/-- Witness for C6: a boolean document with trailing whitespace. -/
theorem c6_trailing_content_witness :
    decodeType intFloatModel ((sizeT .tBool + 1) * (("\"1\" \n".data).length + 1)) .tBool
      (Deserializer.fromStr "\"1\" \n".data) = (.ok (.vBool true), ⟨" \n".data, [], true⟩) ∧
    from_str intFloatModel .tBool "\"1\" \n".data = .ok (.vBool true) := by
  have h : decodeType intFloatModel ((sizeT .tBool + 1) * (("\"1\" \n".data).length + 1)) .tBool
      (Deserializer.fromStr "\"1\" \n".data)
      = (.ok (.vBool true), ⟨" \n".data, [], true⟩) := by rfl
  exact ⟨h, (c6_trailing_content intFloatModel .tBool "\"1\" \n".data (.vBool true)
    ⟨" \n".data, [], true⟩ h).1 (by decide)⟩

/-! ## Unsupported-shape decode claim -/

/-- C7 counterexample: a decode request at option shape is not rejected:
`deserialize_option` forwards to the wrapped value (`visit_some`), so it
consumes the token and succeeds instead of failing with `UnsupportedType`
and leaving the state unchanged. -/
theorem c7_option_not_rejected :
    decodeType intFloatModel 2 (.tOption .tBool) ⟨[], [.item "1".data], true⟩
      = (.ok (.vSome (.vBool true)), ⟨[], [], true⟩) ∧
    ¬ ∃ e : List Char, decodeType intFloatModel 2 (.tOption .tBool)
        ⟨[], [.item "1".data], true⟩
      = (.error (.UnsupportedType e), ⟨[], [.item "1".data], true⟩) := by
  refine ⟨rfl, ?_⟩
  rintro ⟨e, he⟩
  rw [show decodeType intFloatModel 2 (.tOption .tBool) ⟨[], [.item "1".data], true⟩
      = (.ok (.vSome (.vBool true)), ⟨[], [], true⟩) from rfl] at he
  simp at he

/-- C7 (amended).  Unsupported-shape decode rejection: decoding a byte
array, unit, a unit-like zero-field record, a sequence, a tuple, a
tuple-like record, or an unconstrained any-shape request is rejected
immediately with `UnsupportedType` naming the shape, without consuming any
token — the deserializer state is returned unchanged.  (Decoding an option
instead forwards to the wrapped value, and enum-variant requests consume
the variant tag before the generic framework rejects non-unit variants.) -/
theorem c7_unsupported_rejected (M : FloatModel) (f : Nat) (d : Deserializer)
    (name : List Char) (n : Nat) :
    decodeType M (f + 1) .tAny d = (.error (.UnsupportedType "any".data), d) ∧
    decodeType M (f + 1) .tBytes d = (.error (.UnsupportedType "byte array".data), d) ∧
    decodeType M (f + 1) .tUnit d = (.error (.UnsupportedType "unit".data), d) ∧
    decodeType M (f + 1) (.tUnitStruct name) d
      = (.error (.UnsupportedType "unit_struct".data), d) ∧
    decodeType M (f + 1) .tSeq d = (.error (.UnsupportedType "seq".data), d) ∧
    decodeType M (f + 1) (.tTuple n) d = (.error (.UnsupportedType "tuple".data), d) ∧
    decodeType M (f + 1) (.tTupleStruct name) d
      = (.error (.UnsupportedType "tuple_struct".data), d) :=
  ⟨rfl, rfl, rfl, rfl, rfl, rfl, rfl⟩

/-! ## Numeric widening claim -/

/-- C8.  Numeric canonical widening: every narrower integer serializer
delegates to the canonical signed (`i64`) or unsigned (`u64`) serializer on
the same represented integer, which formats the decimal text of the value
and wraps it in double quotes; `f32` first widens to `f64`, whose `Display`
text is wrapped in double quotes — so encoding a narrower numeric type
gives the same output as encoding its widened canonical value. -/
theorem c8_numeric_widening :
    (∀ (st : Serializer) (w : IntWidth) (n : Int),
        st.serialize_int w n
          = (if w.signed then st.serialize_i64 n else st.serialize_u64 n) ∧
        (st.serialize_int w n).output = st.output ++ ('"' :: intRepr n ++ ['"'])) ∧
    (∀ (M : FloatModel) (st : Serializer) (x : M.F32),
        st.serialize_f32 M x = st.serialize_f64 M (M.widen32 x)) ∧
    (∀ (M : FloatModel) (st : Serializer) (y : M.F64),
        (st.serialize_f64 M y).output = st.output ++ ('"' :: M.fmt64 y ++ ['"'])) := by
  refine ⟨fun st w n => ?_, fun M st x => rfl, fun M st y => ?_⟩
  · obtain ⟨o, i⟩ := st
    cases w <;> exact ⟨rfl, rfl⟩
  · obtain ⟨o, i⟩ := st
    rfl

/-! ## Wrapper-type asymmetry claim -/

/-- C10.  Wrapper-type encode/decode asymmetry: encoding through a
single-field wrapper never writes the wrapper's declared name, so a
top-level wrapper around a map yields exactly the map's encoding, beginning
with a newline and an opening brace with no leading name item; but decoding
that same wrapper type at top level first demands an `Item` equal to the
declared name, so decoding the encoder's own output fails with
`Expected (name, "GroupStart")`. -/
theorem c10_wrapper_asymmetry (M : FloatModel) (es : VdfVFields M)
    (name : List Char) (vt : VdfType) :
    (∀ st : Serializer,
        serializeValue M st (.vNewtype (.vMap es)) = serializeValue M st (.vMap es)) ∧
    to_string M (.vNewtype (.vMap es))
      = '\n' :: '{' :: '\n' :: (encFields M 1 es ++ ['}']) ∧
    from_str M (.tNewtype name (.tMap vt)) (to_string M (.vNewtype (.vMap es)))
      = .error (.Expected name "GroupStart".data) := by
  have henc : to_string M (.vNewtype (.vMap es))
      = '\n' :: '{' :: '\n' :: (encFields M 1 es ++ ['}']) := by
    rw [to_string_eq_encVal]
    simp [encVal, tabs]
  refine ⟨fun st => rfl, henc, ?_⟩
  rw [henc]
  obtain ⟨f', hf⟩ := Nat.exists_eq_succ_of_ne_zero
    (n := (sizeT (.tNewtype name (.tMap vt)) + 1) *
      (('\n' :: '{' :: '\n' :: (encFields M 1 es ++ ['}'])).length + 1))
    (Nat.mul_ne_zero (Nat.succ_ne_zero _) (Nat.succ_ne_zero _))
  simp only [from_str, hf]
  rw [show Deserializer.fromStr ('\n' :: '{' :: '\n' :: (encFields M 1 es ++ ['}']))
      = ⟨'\n' :: '{' :: '\n' :: (encFields M 1 es ++ ['}']), [], true⟩ from rfl]
  rw [decodeType_newtype_top]
  rw [show ('\n' :: '{' :: '\n' :: (encFields M 1 es ++ ['}']))
      = ['\n'] ++ '{' :: ('\n' :: (encFields M 1 es ++ ['}'])) from rfl]
  rw [next_token_pull _ _ _ true (nextTok_pre_open ['\n'] _ newline_ws)]
  simp only []
  rw [if_neg (by simp)]
  rfl

/-! ## The top-level flag: where it starts, when it is consulted, and that
it stays false -/

lemma parse_more_flag (d : Deserializer) :
    (parse_more d).2.top_level = d.top_level := by
  unfold parse_more
  cases nextTok d.input <;> rfl

lemma parse_more_if_needed_flag (d : Deserializer) :
    (parse_more_if_needed d).2.top_level = d.top_level := by
  unfold parse_more_if_needed
  split
  · exact parse_more_flag d
  · rfl

lemma peek_token_flag (d : Deserializer) :
    (peek_token d).2.top_level = d.top_level := by
  unfold peek_token
  have h := parse_more_if_needed_flag d
  rcases hp : parse_more_if_needed d with ⟨r, d1⟩
  rw [hp] at h
  cases r with
  | error e => exact h
  | ok u =>
    simp only []
    cases d1.parsed_input with
    | nil => exact h
    | cons t rest => exact h

lemma next_token_flag (d : Deserializer) :
    (next_token d).2.top_level = d.top_level := by
  unfold next_token
  have h := parse_more_if_needed_flag d
  rcases hp : parse_more_if_needed d with ⟨r, d1⟩
  rw [hp] at h
  cases r with
  | error e => exact h
  | ok u =>
    simp only []
    cases d1.parsed_input with
    | nil => exact h
    | cons t rest => exact h

lemma next_token_item_flag (d : Deserializer) :
    (next_token_item d).2.top_level = d.top_level := by
  unfold next_token_item
  have h := next_token_flag d
  rcases hn : next_token d with ⟨r, d1⟩
  rw [hn] at h
  cases r with
  | error e => exact h
  | ok t => cases t <;> exact h

lemma entryLoop_flag_false (M : FloatModel) (c : Bool)
    (step : List Char → Deserializer → Except Error (VdfValue M) × Deserializer)
    (hstep : ∀ k dd, dd.top_level = false → (step k dd).2.top_level = false) :
    ∀ (f : Nat) (seen : List (List Char × VdfValue M)) (d : Deserializer),
      d.top_level = false → (entryLoop M c step f seen d).2.top_level = false
  | 0, _, _, h => h
  | f + 1, seen, d, h => by
    rw [entryLoop_succ]
    have hp := peek_token_flag d
    rcases hpk : peek_token d with ⟨r, d1⟩
    rw [hpk] at hp
    cases r with
    | error e => exact hp.trans h
    | ok t =>
      simp only []
      by_cases ht : t = Token.groupEnd
      · rw [if_pos ht]
        exact hp.trans h
      · rw [if_neg ht]
        have hn := next_token_item_flag d1
        rcases hni : next_token_item d1 with ⟨r2, d2⟩
        rw [hni] at hn
        have h2 : d2.top_level = false := hn.trans (hp.trans h)
        cases r2 with
        | error e => exact h2
        | ok k =>
          simp only []
          by_cases hdup : (c && List.contains (seen.map Prod.fst) k) = true
          · rw [if_pos hdup]
            exact h2
          · rw [if_neg hdup]
            have hs := hstep k d2 h2
            rcases hst : step k d2 with ⟨r3, d3⟩
            rw [hst] at hs
            cases r3 with
            | error e => exact hs
            | ok v =>
              exact entryLoop_flag_false M c step hstep f (seen ++ [(k, v)]) d3 hs

/-- Once the top-level flag is false, no operation of the run ever sets it
back: every decode leaves it false, whatever the outcome. -/
lemma decodeType_flag_false (M : FloatModel) :
    ∀ (f : Nat) (t : VdfType) (d : Deserializer), d.top_level = false →
      (decodeType M f t d).2.top_level = false
  | 0, _, _, h => h
  | f + 1, t, d, h => by
    obtain ⟨i, q, tl⟩ := d
    have htl : tl = false := h
    subst htl
    cases t with
    | tAny => exact rfl
    | tBytes => exact rfl
    | tUnit => exact rfl
    | tUnitStruct name => exact rfl
    | tSeq => exact rfl
    | tTuple n => exact rfl
    | tTupleStruct name => exact rfl
    | tBool =>
      rw [decodeType_bool]
      have hn := next_token_flag ⟨i, q, false⟩
      rcases hnt : next_token ⟨i, q, false⟩ with ⟨r, d1⟩
      rw [hnt] at hn
      have h1 : d1.top_level = false := hn
      cases r with
      | error e => exact h1
      | ok tok =>
        cases tok with
        | item s =>
          simp only []
          by_cases h0 : s = "0".data
          · rw [if_pos h0]
            exact h1
          · rw [if_neg h0]
            by_cases hone : s = "1".data
            · rw [if_pos hone]
              exact h1
            · rw [if_neg hone]
              exact h1
        | groupStart => exact h1
        | groupEnd => exact h1
    | tInt w =>
      rw [decodeType_int]
      have hn := next_token_item_flag ⟨i, q, false⟩
      rcases hnt : next_token_item ⟨i, q, false⟩ with ⟨r, d1⟩
      rw [hnt] at hn
      have h1 : d1.top_level = false := hn
      cases r with
      | error e => exact h1
      | ok s =>
        simp only []
        cases parseIntText w s with
        | none => exact h1
        | some n => exact h1
    | tF32 =>
      rw [decodeType_f32]
      have hn := next_token_item_flag ⟨i, q, false⟩
      rcases hnt : next_token_item ⟨i, q, false⟩ with ⟨r, d1⟩
      rw [hnt] at hn
      have h1 : d1.top_level = false := hn
      cases r with
      | error e => exact h1
      | ok s =>
        simp only []
        cases M.parseF32 s with
        | none => exact h1
        | some x => exact h1
    | tF64 =>
      rw [decodeType_f64]
      have hn := next_token_item_flag ⟨i, q, false⟩
      rcases hnt : next_token_item ⟨i, q, false⟩ with ⟨r, d1⟩
      rw [hnt] at hn
      have h1 : d1.top_level = false := hn
      cases r with
      | error e => exact h1
      | ok s =>
        simp only []
        cases M.parseF64 s with
        | none => exact h1
        | some x => exact h1
    | tChar =>
      rw [decodeType_char]
      have hn := next_token_item_flag ⟨i, q, false⟩
      rcases hnt : next_token_item ⟨i, q, false⟩ with ⟨r, d1⟩
      rw [hnt] at hn
      have h1 : d1.top_level = false := hn
      cases r with
      | error e => exact h1
      | ok s =>
        simp only []
        rcases s with _ | ⟨c, _ | ⟨c2, s2⟩⟩ <;> exact h1
    | tString =>
      rw [decodeType_string]
      have hn := next_token_item_flag ⟨i, q, false⟩
      rcases hnt : next_token_item ⟨i, q, false⟩ with ⟨r, d1⟩
      rw [hnt] at hn
      have h1 : d1.top_level = false := hn
      cases r with
      | error e => exact h1
      | ok s => exact h1
    | tEnum variants =>
      rw [decodeType_enum]
      have hn := next_token_item_flag ⟨i, q, false⟩
      rcases hnt : next_token_item ⟨i, q, false⟩ with ⟨r, d1⟩
      rw [hnt] at hn
      have h1 : d1.top_level = false := hn
      cases r with
      | error e => exact h1
      | ok s =>
        simp only []
        by_cases hv : (variants.contains s) = true
        · rw [if_pos hv]
          exact h1
        · rw [if_neg hv]
          exact h1
    | tOption t2 =>
      rw [decodeType_option]
      have hrec := decodeType_flag_false M f t2 ⟨i, q, false⟩ rfl
      rcases hd : decodeType M f t2 ⟨i, q, false⟩ with ⟨r, d1⟩
      rw [hd] at hrec
      cases r with
      | error e => exact hrec
      | ok v => exact hrec
    | tNewtype name t2 =>
      rw [decodeType_newtype_nontop]
      have hrec := decodeType_flag_false M f t2 ⟨i, q, false⟩ rfl
      rcases hd : decodeType M f t2 ⟨i, q, false⟩ with ⟨r, d1⟩
      rw [hd] at hrec
      cases r with
      | error e => exact hrec
      | ok v => exact hrec
    | tStruct name fields =>
      show ((match next_token (⟨i, q, false⟩ : Deserializer) with
        | (.error e, d2) => ((.error e : Except Error (VdfValue M)), d2)
        | (.ok .groupStart, d2) =>
          (match entryLoop M true
              (fun k dd =>
                match VdfTFields.find? fields k with
                | some vt => decodeType M f vt dd
                | none => (.error (.UnsupportedType "any".data), dd))
              f [] d2 with
          | (.error e, d3) => (.error e, d3)
          | (.ok seen, d3) =>
            match buildStruct M fields seen with
            | none => (.error (.Message "missing field".data), d3)
            | some vf =>
              match next_token d3 with
              | (.error e, d4) => (.error e, d4)
              | (.ok .groupEnd, d4) => (.ok (.vStruct name vf), d4)
              | (.ok got, d4) => (.error (.Expected "'\x7d'".data (tokenDebug got)), d4))
        | (.ok got, d2) =>
          (.error (.Expected "'\x7b'".data (tokenDebug got)), d2) :
        Except Error (VdfValue M) × Deserializer)).2.top_level = false
      have hn := next_token_flag ⟨i, q, false⟩
      rcases hnt : next_token ⟨i, q, false⟩ with ⟨r, d2⟩
      rw [hnt] at hn
      have h2 : d2.top_level = false := hn
      cases r with
      | error e => exact h2
      | ok tok =>
        cases tok with
        | item s => exact h2
        | groupEnd => exact h2
        | groupStart =>
          simp only []
          have h3top := entryLoop_flag_false M true
            (fun k dd =>
              match VdfTFields.find? fields k with
              | some vt => decodeType M f vt dd
              | none => (.error (.UnsupportedType "any".data), dd))
            (fun k dd hdd => by
              simp only []
              cases VdfTFields.find? fields k with
              | some vt => exact decodeType_flag_false M f vt dd hdd
              | none => exact hdd)
            f [] d2 h2
          rcases helq : entryLoop M true
              (fun k dd =>
                match VdfTFields.find? fields k with
                | some vt => decodeType M f vt dd
                | none => (.error (.UnsupportedType "any".data), dd))
              f [] d2 with ⟨r3, d3⟩
          rw [helq] at h3top
          have h3 : d3.top_level = false := h3top
          cases r3 with
          | error e => exact h3
          | ok seen =>
            simp only []
            cases buildStruct M fields seen with
            | none => exact h3
            | some vf =>
              simp only []
              have hn4 := next_token_flag d3
              rcases hnt4 : next_token d3 with ⟨r4, d4⟩
              rw [hnt4] at hn4
              have h4 : d4.top_level = false := hn4.trans h3
              cases r4 with
              | error e => exact h4
              | ok tok4 => cases tok4 <;> exact h4
    | tMap vt =>
      show ((match next_token (⟨i, q, false⟩ : Deserializer) with
        | (.error e, d2) => ((.error e : Except Error (VdfValue M)), d2)
        | (.ok .groupStart, d2) =>
          (match entryLoop M false (fun _ dd => decodeType M f vt dd) f [] d2 with
          | (.error e, d3) => (.error e, d3)
          | (.ok seen, d3) =>
            match next_token d3 with
            | (.error e, d4) => (.error e, d4)
            | (.ok .groupEnd, d4) => (.ok (.vMap (listToVFields M seen)), d4)
            | (.ok got, d4) => (.error (.Expected "'\x7d'".data (tokenDebug got)), d4))
        | (.ok got, d2) =>
          (.error (.Expected "'\x7b'".data (tokenDebug got)), d2) :
        Except Error (VdfValue M) × Deserializer)).2.top_level = false
      have hn := next_token_flag ⟨i, q, false⟩
      rcases hnt : next_token ⟨i, q, false⟩ with ⟨r, d2⟩
      rw [hnt] at hn
      have h2 : d2.top_level = false := hn
      cases r with
      | error e => exact h2
      | ok tok =>
        cases tok with
        | item s => exact h2
        | groupEnd => exact h2
        | groupStart =>
          simp only []
          have h3top := entryLoop_flag_false M false
            (fun _ dd => decodeType M f vt dd)
            (fun k dd hdd => decodeType_flag_false M f vt dd hdd)
            f [] d2 h2
          rcases helq : entryLoop M false (fun _ dd => decodeType M f vt dd)
              f [] d2 with ⟨r3, d3⟩
          rw [helq] at h3top
          have h3 : d3.top_level = false := h3top
          cases r3 with
          | error e => exact h3
          | ok seen =>
            simp only []
            have hn4 := next_token_flag d3
            rcases hnt4 : next_token d3 with ⟨r4, d4⟩
            rw [hnt4] at hn4
            have h4 : d4.top_level = false := hn4.trans h3
            cases r4 with
            | error e => exact h4
            | ok tok4 => cases tok4 <;> exact h4

/-- A successful top-level record decode clears the flag: the name token is
consumed, the flag is set to false, and every later step preserves it. -/
lemma decode_struct_top_flag (M : FloatModel) (f : Nat) (name : List Char)
    (fields : VdfTFields) (i : List Char) (q : List Token) (v : VdfValue M)
    (d' : Deserializer)
    (h : decodeType M f (.tStruct name fields) ⟨i, q, true⟩ = (.ok v, d')) :
    d'.top_level = false := by
  cases f with
  | zero =>
    have h0 : ((.error (.Message "recursion limit reached".data) :
        Except Error (VdfValue M)), (⟨i, q, true⟩ : Deserializer)) = (.ok v, d') := h
    simp at h0
  | succ f =>
    have h1 : (match (match next_token (⟨i, q, true⟩ : Deserializer) with
        | (.error e, d1) => ((.error e : Except Error Unit), d1)
        | (.ok tok, d1) =>
          if tok = Token.item name then ((.ok () : Except Error Unit), { d1 with top_level := false })
          else (.error (.Expected name (tokenDebug tok)), d1)) with
      | (.error e, d1) => ((.error e : Except Error (VdfValue M)), d1)
      | (.ok _, d1) =>
        match next_token d1 with
        | (.error e, d2) => (.error e, d2)
        | (.ok .groupStart, d2) =>
          (match entryLoop M true
              (fun k dd =>
                match VdfTFields.find? fields k with
                | some vt => decodeType M f vt dd
                | none => (.error (.UnsupportedType "any".data), dd))
              f [] d2 with
          | (.error e, d3) => (.error e, d3)
          | (.ok seen, d3) =>
            match buildStruct M fields seen with
            | none => (.error (.Message "missing field".data), d3)
            | some vf =>
              match next_token d3 with
              | (.error e, d4) => (.error e, d4)
              | (.ok .groupEnd, d4) => (.ok (.vStruct name vf), d4)
              | (.ok got, d4) => (.error (.Expected "'\x7d'".data (tokenDebug got)), d4))
        | (.ok got, d2) => (.error (.Expected "'\x7b'".data (tokenDebug got)), d2)) =
        (.ok v, d') := h
    rcases hnt : next_token (⟨i, q, true⟩ : Deserializer) with ⟨r1, d1⟩
    rw [hnt] at h1
    cases r1 with
    | error e => simp at h1
    | ok tok =>
      simp only [] at h1
      by_cases hname : tok = Token.item name
      · rw [if_pos hname] at h1
        simp only [] at h1
        rcases hnt2 : next_token { d1 with top_level := false } with ⟨r2, d2⟩
        rw [hnt2] at h1
        have h2 : d2.top_level = false := by
          have hh := next_token_flag { d1 with top_level := false }
          rw [hnt2] at hh
          exact hh
        cases r2 with
        | error e => simp at h1
        | ok tok2 =>
          cases tok2 with
          | item s => simp at h1
          | groupEnd => simp at h1
          | groupStart =>
            simp only [] at h1
            have h3top := entryLoop_flag_false M true
              (fun k dd =>
                match VdfTFields.find? fields k with
                | some vt => decodeType M f vt dd
                | none => (.error (.UnsupportedType "any".data), dd))
              (fun k dd hdd => by
                simp only []
                cases VdfTFields.find? fields k with
                | some vt => exact decodeType_flag_false M f vt dd hdd
                | none => exact hdd)
              f [] d2 h2
            rcases helq : entryLoop M true
                (fun k dd =>
                  match VdfTFields.find? fields k with
                  | some vt => decodeType M f vt dd
                  | none => (.error (.UnsupportedType "any".data), dd))
                f [] d2 with ⟨r3, d3⟩
            rw [helq] at h1 h3top
            have h3 : d3.top_level = false := h3top
            cases r3 with
            | error e => simp at h1
            | ok seen =>
              simp only [] at h1
              rcases hb : buildStruct M fields seen with _ | vf
              · rw [hb] at h1
                simp at h1
              · rw [hb] at h1
                simp only [] at h1
                rcases hnt4 : next_token d3 with ⟨r4, d4⟩
                rw [hnt4] at h1
                have h4 : d4.top_level = false := by
                  have hh := next_token_flag d3
                  rw [hnt4] at hh
                  exact hh.trans h3
                cases r4 with
                | error e => simp at h1
                | ok tok4 =>
                  cases tok4 with
                  | item s => simp at h1
                  | groupStart => simp at h1
                  | groupEnd =>
                    simp only [] at h1
                    have hd' : d4 = d' := congrArg Prod.snd h1
                    rw [← hd']
                    exact h4
      · rw [if_neg hname] at h1
        simp at h1

/-- A successful top-level wrapper decode clears the flag likewise. -/
lemma decode_newtype_top_flag (M : FloatModel) (f : Nat) (name : List Char)
    (t2 : VdfType) (i : List Char) (q : List Token) (v : VdfValue M)
    (d' : Deserializer)
    (h : decodeType M f (.tNewtype name t2) ⟨i, q, true⟩ = (.ok v, d')) :
    d'.top_level = false := by
  cases f with
  | zero =>
    have h0 : ((.error (.Message "recursion limit reached".data) :
        Except Error (VdfValue M)), (⟨i, q, true⟩ : Deserializer)) = (.ok v, d') := h
    simp at h0
  | succ f =>
    rw [decodeType_newtype_top] at h
    rcases hnt : next_token (⟨i, q, true⟩ : Deserializer) with ⟨r1, d1⟩
    rw [hnt] at h
    cases r1 with
    | error e => simp at h
    | ok tok =>
      simp only [] at h
      by_cases hname : tok = Token.item name
      · rw [if_pos hname] at h
        have hrec := decodeType_flag_false M f t2 { d1 with top_level := false } rfl
        rcases hdq : decodeType M f t2 { d1 with top_level := false } with ⟨r2, d2⟩
        rw [hdq] at h hrec
        cases r2 with
        | error e => simp at h
        | ok w =>
          simp only [] at h
          have hd' : d2 = d' := congrArg Prod.snd h
          rw [← hd']
          exact hrec
      · rw [if_neg hname] at h
        simp at h

/-- C9.  Top-level name flag invariant: the flag starts `true` in a fresh
run; whenever it is `false` it stays `false` through any decode, whatever
the outcome; the one consultation that clears it is the first successful
decode of a named aggregate — a top-level record or wrapper decode that
succeeds returns a state with the flag `false`; and afterwards no record
or wrapper decode consumes a name token: with the flag `false` a wrapper
decode forwards directly to the wrapped type, and a record decode demands
an opening brace as its very first token, failing with `Expected "'\x7b'"`
on anything else. -/
theorem c9_top_level_flag (M : FloatModel) (f : Nat) (s name : List Char)
    (t : VdfType) (fields : VdfTFields) (d : Deserializer) :
    (Deserializer.fromStr s).top_level = true ∧
    (∀ r d', d.top_level = false → decodeType M f t d = (r, d') →
      d'.top_level = false) ∧
    (∀ v d', d.top_level = true →
      decodeType M f (.tStruct name fields) d = (.ok v, d') →
      d'.top_level = false) ∧
    (∀ v d', d.top_level = true →
      decodeType M f (.tNewtype name t) d = (.ok v, d') →
      d'.top_level = false) ∧
    (d.top_level = false →
      decodeType M (f + 1) (.tNewtype name t) d =
        (match decodeType M f t d with
          | (.error e, d2) => (.error e, d2)
          | (.ok v, d2) => (.ok (.vNewtype v), d2))) ∧
    (∀ tok d2, d.top_level = false → next_token d = (.ok tok, d2) →
      tok ≠ .groupStart →
      decodeType M (f + 1) (.tStruct name fields) d =
        (.error (.Expected "'\x7b'".data (tokenDebug tok)), d2)) := by
  obtain ⟨i, q, tl⟩ := d
  refine ⟨rfl, ?_, ?_, ?_, ?_, ?_⟩
  · intro r d' h hd
    have htl : tl = false := h
    subst htl
    have hpres := decodeType_flag_false M f t ⟨i, q, false⟩ rfl
    rw [hd] at hpres
    exact hpres
  · intro v d' h hd
    have htl : tl = true := h
    subst htl
    exact decode_struct_top_flag M f name fields i q v d' hd
  · intro v d' h hd
    have htl : tl = true := h
    subst htl
    exact decode_newtype_top_flag M f name t i q v d' hd
  · intro h
    have htl : tl = false := h
    subst htl
    exact decodeType_newtype_nontop M f name t i q
  · intro tok d2 h hnt htok
    have htl : tl = false := h
    subst htl
    rw [decodeType_struct_nontop, hnt]
    cases tok with
    | groupStart => exact absurd rfl htok
    | item s2 => rfl
    | groupEnd => rfl

/-- Witness for C9: with the flag already `false`, decoding a boolean from
a one-token queue leaves the flag `false`. -/
theorem c9_top_level_flag_witness :
    (⟨[], [], false⟩ : Deserializer).top_level = false :=
  (c9_top_level_flag intFloatModel 1 [] [] .tBool .nil
      ⟨[], [.item "1".data], false⟩).2.1
    (.ok (.vBool true)) ⟨[], [], false⟩ rfl rfl

end VdfSerde
